import Mathlib

/-!
Verification of the Sudoku puzzle engine of this repository.

The engine exists in several near-identical variants:
* `script.js` — the main web variant (solver `solveSudoku`, counter
  `countSolutions`, generator `generatePuzzle`, play operations
  `setValueAt` / `toggleNoteAt` / `eraseAt`, persistence
  `saveProgress` / `loadProgress`, completion check `maybeSolved`);
* the Dart view-model (`SudokuViewModel`): `_canPlace`, `_countSolutions`,
  `_createSolvedGrid`, `_removeCellsWithUniquenessCheck`, `setNumber`,
  `toggleCandidate`, `clearCell`, `undo`, `_pushUndo`, `_checkSolved`,
  `_saveToPrefs` / `_loadFromPrefs`.

Grids are embedded as `List (List Nat)` (9×9, `0` = empty), and the
in-place mutation of the JavaScript/Dart code is embedded by explicit
state passing: every function that mutates a grid takes the grid and
returns the updated grid.  Backtracking recursions are embedded with a
fuel parameter; fuel `81` (one unit per empty cell) is always enough,
which the lemmas make precise.  Randomness (`Math.random`, Dart `Random`)
is embedded as an oracle argument supplying the values the code draws.
-/

namespace Sudoku

/-- A grid is a list of rows; a cell holds `0` for empty. -/
abbrev Grid := List (List Nat)

/-- Cell read, with the out-of-range default `0` (in-range use is the
only use the code makes; lemmas carry the bounds). -/
def getCell (g : Grid) (r c : Nat) : Nat := (g.getD r []).getD c 0

/-- Cell write (`grid[r][c] = v` of the source). -/
def setCell (g : Grid) (r c v : Nat) : Grid := g.set r ((g.getD r []).set c v)

/-- The grid is 9×9. -/
def wfGrid (g : Grid) : Bool :=
  (g.length == 9) && (List.range 9).all fun r => (g.getD r []).length == 9

/-- Embeds `isValidPlacement` of `script.js` / `_canPlace` of the Dart VM:
no cell in row `r`, column `c`, or the box of `(r,c)` holds `n`.
The scan includes the cell `(r,c)` itself, exactly as in the source. -/
def canPlace (g : Grid) (r c n : Nat) : Bool :=
  ((List.range 9).all fun i => (getCell g r i != n) && (getCell g i c != n)) &&
  ((List.range 3).all fun dr => (List.range 3).all fun dc =>
    getCell g (r / 3 * 3 + dr) (c / 3 * 3 + dc) != n)

/-- First empty cell of row `r`. -/
def findEmptyInRow (g : Grid) (r : Nat) : Option Nat :=
  (List.range 9).find? fun c => getCell g r c == 0

/-- Row-major scan for the first empty cell, as done by the solver and
the solution counters. -/
def findFirstEmpty (g : Grid) : Option (Nat × Nat) :=
  (List.range 9).findSome? fun r => (findEmptyInRow g r).map fun c => (r, c)

/-- The digit candidates `1..9` in the fixed order the code tries them. -/
def digits19 : List Nat := [1, 2, 3, 4, 5, 6, 7, 8, 9]

/-- No cell of the grid is empty (every position in range holds a
nonzero value). -/
def fullGrid (g : Grid) : Bool :=
  (List.range 9).all fun r => (List.range 9).all fun c => getCell g r c != 0

/-- Every cell value is at most 9 (so nonzero cells hold digits 1..9). -/
def digitsOk (g : Grid) : Bool :=
  (List.range 9).all fun r => (List.range 9).all fun c => getCell g r c ≤ 9

/-- The filled cell `(r,c)` clashes with no other cell of its row,
column or box (empty cells never clash). -/
def noConflictAt (g : Grid) (r c : Nat) : Bool :=
  let v := getCell g r c
  (v == 0) ||
  (((List.range 9).all fun i =>
      ((i == c) || (getCell g r i != v)) && ((i == r) || (getCell g i c != v))) &&
   ((List.range 3).all fun dr => (List.range 3).all fun dc =>
      ((r / 3 * 3 + dr == r) && (c / 3 * 3 + dc == c)) ||
      (getCell g (r / 3 * 3 + dr) (c / 3 * 3 + dc) != v)))

/-- Pairwise consistency of the filled cells: no duplicate nonzero value
in any row, column or box. -/
def consistent (g : Grid) : Bool :=
  (List.range 9).all fun r => (List.range 9).all fun c => noConflictAt g r c

/-- Grid `K` agrees with `g` on every filled cell of `g`. -/
def extendsGrid (g K : Grid) : Bool :=
  (List.range 9).all fun r => (List.range 9).all fun c =>
    (getCell g r c == 0) || (getCell K r c == getCell g r c)

/-- A completion of `g`: a 9×9 grid that extends `g`, is completely
filled with digits 1..9, and satisfies all Sudoku constraints.  This is
the specification-side notion the Solution Counter is measured against. -/
def isCompletion (g K : Grid) : Bool :=
  wfGrid K && extendsGrid g K && fullGrid K && digitsOk K && consistent K

/-- The number of empty in-range cells, the measure the backtracking
fuel is compared with. -/
def countZeros (g : Grid) : Nat :=
  (((Finset.range 9) ×ˢ (Finset.range 9)).filter
    fun p => getCell g p.1 p.2 = 0).card

/-! ### Basic lemmas about the cell accessors -/

theorem getD_set_self {α : Type} {l : List α} {i : Nat} (h : i < l.length)
    (v d : α) : (l.set i v).getD i d = v := by
  simp [List.getD, List.getElem?_set_self', List.getElem?_eq_getElem h]

theorem getD_set_ne {α : Type} {l : List α} {i j : Nat} (h : i ≠ j)
    (v d : α) : (l.set i v).getD j d = l.getD j d := by
  simp [List.getD, List.getElem?_set_ne h]

theorem length_row_lt {g : Grid} (hwf : wfGrid g = true) {r : Nat} (hr : r < 9) :
    r < g.length := by
  simp only [wfGrid, Bool.and_eq_true, beq_iff_eq] at hwf
  omega

theorem row_length {g : Grid} (hwf : wfGrid g = true) {r : Nat} (hr : r < 9) :
    (g.getD r []).length = 9 := by
  simp only [wfGrid, Bool.and_eq_true, beq_iff_eq, List.all_eq_true,
    List.mem_range] at hwf
  exact hwf.2 r hr

theorem getD_rows_set {g : Grid} {r : Nat} (row : List Nat) (hr : r < g.length) :
    ((g.set r row).getD r []) = row := by
  simp [List.getD, List.getElem?_set_self', List.getElem?_eq_getElem hr]

theorem getD_rows_set_ne {g : Grid} {r r' : Nat} (row : List Nat) (h : r ≠ r') :
    ((g.set r row).getD r' []) = g.getD r' [] := by
  simp [List.getD, List.getElem?_set_ne h]

theorem getCell_setCell_self {g : Grid} (hwf : wfGrid g = true)
    {r c : Nat} (hr : r < 9) (hc : c < 9) (v : Nat) :
    getCell (setCell g r c v) r c = v := by
  unfold getCell setCell
  rw [getD_rows_set _ (length_row_lt hwf hr)]
  exact getD_set_self (by rw [row_length hwf hr]; exact hc) v 0

theorem getCell_setCell_ne {g : Grid} {r c r' c' : Nat}
    (h : r ≠ r' ∨ c ≠ c') (v : Nat) :
    getCell (setCell g r c v) r' c' = getCell g r' c' := by
  unfold getCell setCell
  rcases Nat.decEq r r' with hrr | hrr
  · rw [getD_rows_set_ne _ hrr]
  · subst hrr
    rcases h with h | h
    · exact absurd rfl h
    · by_cases hlen : r < g.length
      · rw [getD_rows_set _ hlen, getD_set_ne h]
      · rw [List.set_eq_of_length_le (by omega)]

theorem wfGrid_setCell {g : Grid} (hwf : wfGrid g = true) (r c v : Nat) :
    wfGrid (setCell g r c v) = true := by
  simp only [wfGrid, Bool.and_eq_true, beq_iff_eq, List.all_eq_true,
    List.mem_range] at hwf ⊢
  refine ⟨by simp [setCell, hwf.1], fun r' hr' => ?_⟩
  rcases Nat.decEq r r' with hrr | hrr
  · rw [setCell, getD_rows_set_ne _ hrr]; exact hwf.2 r' hr'
  · subst hrr
    by_cases hlen : r < g.length
    · rw [setCell, getD_rows_set _ hlen, List.length_set]
      exact hwf.2 r hr'
    · rw [setCell, List.set_eq_of_length_le (by omega)]
      exact hwf.2 r hr'

theorem setCell_setCell_cancel {g : Grid} (hwf : wfGrid g = true)
    {r c : Nat} (hr : r < 9) (hc : c < 9) (v : Nat)
    (h0 : getCell g r c = 0) :
    setCell (setCell g r c v) r c 0 = g := by
  have hlen := length_row_lt hwf hr
  have hrow := row_length hwf hr
  unfold setCell
  rw [getD_rows_set _ hlen, List.set_set, List.set_set]
  have : (g.getD r []).set c 0 = g.getD r [] := by
    have : (g.getD r []).getD c 0 = 0 := h0
    apply List.ext_getElem (by simp)
    intro i h1 h2
    rcases Nat.decEq c i with hci | hci
    · rw [List.getElem_set_ne hci]
    · subst hci
      rw [List.getElem_set_self]
      have := List.getD_eq_getElem (g.getD r []) 0 h2
      omega
  rw [this]
  apply List.ext_getElem (by simp)
  intro i h1 h2
  rcases Nat.decEq r i with hri | hri
  · rw [List.getElem_set_ne hri]
  · subst hri
    rw [List.getElem_set_self]
    exact List.getD_eq_getElem g [] h2

/-! ### Characterizations of the grid predicates -/

/-- Two cells share a row, a column, or a 3×3 box. -/
def sameUnit (r c r' c' : Nat) : Prop :=
  r = r' ∨ c = c' ∨ (r / 3 = r' / 3 ∧ c / 3 = c' / 3)

theorem sameUnit_symm {r c r' c' : Nat} (h : sameUnit r c r' c') :
    sameUnit r' c' r c := by
  unfold sameUnit at h ⊢; omega

theorem canPlace_spec {g : Grid} {r c n : Nat} (hr : r < 9) (hc : c < 9) :
    canPlace g r c n = true ↔
      ∀ r' c', r' < 9 → c' < 9 → sameUnit r c r' c' → getCell g r' c' ≠ n := by
  simp only [canPlace, Bool.and_eq_true, List.all_eq_true, List.mem_range,
    bne_iff_ne]
  constructor
  · rintro ⟨hrow, hbox⟩ r' c' hr' hc' hunit
    rcases hunit with h | h | ⟨h1, h2⟩
    · subst h; exact (hrow c' hc').1
    · subst h; exact (hrow r' hr').2
    · have e1 : r / 3 * 3 + r' % 3 = r' := by omega
      have e2 : c / 3 * 3 + c' % 3 = c' := by omega
      have := hbox (r' % 3) (by omega) (c' % 3) (by omega)
      rwa [e1, e2] at this
  · intro h
    refine ⟨fun i hi => ⟨?_, ?_⟩, fun dr hdr dc hdc => ?_⟩
    · exact h r i hr hi (Or.inl rfl)
    · exact h i c hi hc (Or.inr (Or.inl rfl))
    · exact h (r / 3 * 3 + dr) (c / 3 * 3 + dc) (by omega) (by omega)
        (Or.inr (Or.inr ⟨by omega, by omega⟩))

theorem consistent_spec {g : Grid} :
    consistent g = true ↔
      ∀ r c r' c', r < 9 → c < 9 → r' < 9 → c' < 9 → (r, c) ≠ (r', c') →
        sameUnit r c r' c' → getCell g r c ≠ 0 →
        getCell g r c ≠ getCell g r' c' := by
  simp only [consistent, noConflictAt, List.all_eq_true, List.mem_range,
    Bool.or_eq_true, Bool.and_eq_true, beq_iff_eq, bne_iff_ne]
  constructor
  · intro h r c r' c' hr hc hr' hc' hne hunit h0 heq
    rcases h r hr c hc with h9 | ⟨hrow, hbox⟩
    · exact h0 h9
    rcases hunit with hu | hu | ⟨hu1, hu2⟩
    · subst hu
      rcases hrow c' hc' with ⟨h1 | h1, _⟩
      · exact hne (by simp [h1])
      · exact h1 heq.symm
    · subst hu
      rcases hrow r' hr' with ⟨_, h1 | h1⟩
      · exact hne (by simp [h1])
      · exact h1 heq.symm
    · have e1 : r / 3 * 3 + r' % 3 = r' := by omega
      have e2 : c / 3 * 3 + c' % 3 = c' := by omega
      rcases hbox (r' % 3) (by omega) (c' % 3) (by omega) with ⟨h1, h2⟩ | h1
      · exact hne (by rw [e1] at h1; rw [e2] at h2; simp [h1, h2])
      · rw [e1, e2] at h1; exact h1 heq.symm
  · intro h r hr c hc
    by_cases h0 : getCell g r c = 0
    · exact Or.inl h0
    refine Or.inr ⟨fun i hi => ⟨?_, ?_⟩, fun dr hdr dc hdc => ?_⟩
    · rcases Nat.decEq i c with hic | hic
      · exact Or.inr fun heq =>
          h r c r i hr hc hr hi (by simp [Ne.symm hic]) (Or.inl rfl) h0 heq.symm
      · exact Or.inl hic
    · rcases Nat.decEq i r with hir | hir
      · exact Or.inr fun heq =>
          h r c i c hr hc hi hc (by simp [Ne.symm hir]) (Or.inr (Or.inl rfl))
            h0 heq.symm
      · exact Or.inl hir
    · by_cases hrc : r / 3 * 3 + dr = r ∧ c / 3 * 3 + dc = c
      · exact Or.inl hrc
      · refine Or.inr fun heq => ?_
        refine h r c (r / 3 * 3 + dr) (c / 3 * 3 + dc) hr hc (by omega) (by omega)
          ?_ (Or.inr (Or.inr ⟨by omega, by omega⟩)) h0 heq.symm
        intro hpair
        apply hrc
        constructor
        · exact (congrArg Prod.fst hpair).symm
        · exact (congrArg Prod.snd hpair).symm

theorem pair_ne {a b r c : Nat} (h : (a, b) ≠ (r, c)) : r ≠ a ∨ c ≠ b := by
  rcases Nat.decEq r a with h1 | h1
  · exact Or.inl h1
  · rcases Nat.decEq c b with h2 | h2
    · exact Or.inr h2
    · subst h1; subst h2; exact absurd rfl h

theorem consistent_setCell {g : Grid} (hwf : wfGrid g = true)
    {r c n : Nat} (hr : r < 9) (hc : c < 9)
    (hcons : consistent g = true) (hcp : canPlace g r c n = true) :
    consistent (setCell g r c n) = true := by
  rw [consistent_spec] at hcons ⊢
  rw [canPlace_spec hr hc] at hcp
  intro a b a' b' ha hb ha' hb' hne hunit hnz
  by_cases hab : (a, b) = (r, c)
  · have h1 : a = r := congrArg Prod.fst hab
    have h2 : b = c := congrArg Prod.snd hab
    have hab' : (a', b') ≠ (r, c) := fun hh => hne (hab.trans hh.symm)
    have hne2 := pair_ne hab'
    rw [h1, h2, getCell_setCell_self hwf hr hc, getCell_setCell_ne hne2]
    have hu : sameUnit r c a' b' := by rw [h1, h2] at hunit; exact hunit
    exact fun heq => hcp a' b' ha' hb' hu heq.symm
  · have hne1 := pair_ne hab
    rw [getCell_setCell_ne hne1] at hnz ⊢
    by_cases hab' : (a', b') = (r, c)
    · have h1 : a' = r := congrArg Prod.fst hab'
      have h2 : b' = c := congrArg Prod.snd hab'
      rw [h1, h2, getCell_setCell_self hwf hr hc]
      have hu : sameUnit r c a b := by
        have hs := sameUnit_symm hunit
        rw [h1, h2] at hs
        exact hs
      exact fun heq => hcp a b ha hb hu heq
    · have hne2 := pair_ne hab'
      rw [getCell_setCell_ne hne2]
      exact hcons a b a' b' ha hb ha' hb' hne hunit hnz

theorem findFirstEmpty_some {g : Grid} {r c : Nat}
    (h : findFirstEmpty g = some (r, c)) :
    r < 9 ∧ c < 9 ∧ getCell g r c = 0 := by
  obtain ⟨a, ha, hfa⟩ := List.exists_of_findSome?_eq_some h
  rcases Option.map_eq_some'.mp hfa with ⟨c', hc', heq⟩
  have h1 : a = r := congrArg Prod.fst heq
  have h2 : c' = c := congrArg Prod.snd heq
  subst h1; subst h2
  have hr : a < 9 := List.mem_range.mp ha
  have hc : c' ∈ List.range 9 := List.mem_of_find?_eq_some hc'
  have hz := List.find?_some hc'
  exact ⟨hr, List.mem_range.mp hc, by simpa using hz⟩

theorem findFirstEmpty_none {g : Grid} (h : findFirstEmpty g = none) :
    fullGrid g = true := by
  unfold findFirstEmpty at h
  rw [List.findSome?_eq_none_iff] at h
  simp only [fullGrid, List.all_eq_true, List.mem_range, bne_iff_ne]
  intro r hr c hc
  have h1 := h r (List.mem_range.mpr hr)
  rw [Option.map_eq_none'] at h1
  unfold findEmptyInRow at h1
  rw [List.find?_eq_none] at h1
  have h2 := h1 c (List.mem_range.mpr hc)
  simpa using h2

theorem fullGrid_findFirstEmpty {g : Grid} (h : fullGrid g = true) :
    findFirstEmpty g = none := by
  cases hfe : findFirstEmpty g with
  | none => rfl
  | some p =>
    obtain ⟨r, c⟩ := p
    obtain ⟨hr, hc, hz⟩ := findFirstEmpty_some hfe
    simp only [fullGrid, List.all_eq_true, List.mem_range, bne_iff_ne] at h
    exact absurd hz (h r hr c hc)

theorem extendsGrid_spec {g K : Grid} :
    extendsGrid g K = true ↔
      ∀ r c, r < 9 → c < 9 → getCell g r c ≠ 0 →
        getCell K r c = getCell g r c := by
  simp only [extendsGrid, List.all_eq_true, List.mem_range, Bool.or_eq_true,
    beq_iff_eq]
  constructor
  · intro h r c hr hc hnz
    rcases h r hr c hc with h1 | h1
    · exact absurd h1 hnz
    · exact h1
  · intro h r hr c hc
    by_cases h0 : getCell g r c = 0
    · exact Or.inl h0
    · exact Or.inr (h r c hr hc h0)

theorem extendsGrid_refl (g : Grid) : extendsGrid g g = true := by
  rw [extendsGrid_spec]; intro _ _ _ _ _; rfl

theorem extendsGrid_of_setCell {g K : Grid} {r c n : Nat}
    (h0 : getCell g r c = 0)
    (hext : extendsGrid (setCell g r c n) K = true) :
    extendsGrid g K = true := by
  rw [extendsGrid_spec] at hext ⊢
  intro a b ha hb hnz
  have hne : r ≠ a ∨ c ≠ b := by
    rcases Nat.decEq r a with h1 | h1
    · exact Or.inl h1
    rcases Nat.decEq c b with h2 | h2
    · exact Or.inr h2
    · subst h1; subst h2; exact absurd h0 hnz
  have := hext a b ha hb (by rwa [getCell_setCell_ne hne])
  rwa [getCell_setCell_ne hne] at this

theorem getCell_of_extends_setCell {g K : Grid} {r c n : Nat}
    (hwf : wfGrid g = true) (hr : r < 9) (hc : c < 9) (hn : n ≠ 0)
    (hext : extendsGrid (setCell g r c n) K = true) :
    getCell K r c = n := by
  rw [extendsGrid_spec] at hext
  have := hext r c hr hc (by rw [getCell_setCell_self hwf hr hc]; exact hn)
  rwa [getCell_setCell_self hwf hr hc] at this

theorem digitsOk_setCell {g : Grid} (hd : digitsOk g = true)
    {n : Nat} (hn : n ≤ 9) (r c : Nat) :
    digitsOk (setCell g r c n) = true := by
  simp only [digitsOk, List.all_eq_true, List.mem_range, decide_eq_true_eq]
    at hd ⊢
  intro a ha b hb
  rcases Nat.decEq r a with h1 | h1
  · rw [getCell_setCell_ne (Or.inl h1)]; exact hd a ha b hb
  rcases Nat.decEq c b with h2 | h2
  · rw [getCell_setCell_ne (Or.inr h2)]; exact hd a ha b hb
  · subst h1; subst h2
    by_cases hwfr : r < (g.length)
    · unfold getCell setCell
      rw [getD_rows_set _ hwfr]
      by_cases hcr : c < (g.getD r []).length
      · rw [getD_set_self hcr]; exact hn
      · rw [List.set_eq_of_length_le (by omega)]
        exact hd r ha c hb
    · unfold getCell setCell
      rw [List.set_eq_of_length_le (by omega)]
      exact hd r ha c hb

/-! ### The fuel measure -/

theorem countZeros_le {g : Grid} : countZeros g ≤ 81 := by
  calc countZeros g ≤ ((Finset.range 9) ×ˢ (Finset.range 9)).card :=
        Finset.card_filter_le _ _
    _ = 81 := by simp

theorem countZeros_setCell {g : Grid} (hwf : wfGrid g = true)
    {r c n : Nat} (hr : r < 9) (hc : c < 9) (h0 : getCell g r c = 0)
    (hn : n ≠ 0) :
    countZeros g = countZeros (setCell g r c n) + 1 := by
  unfold countZeros
  have hset : (((Finset.range 9) ×ˢ (Finset.range 9)).filter
      fun p => getCell (setCell g r c n) p.1 p.2 = 0) =
      (((Finset.range 9) ×ˢ (Finset.range 9)).filter
      fun p => getCell g p.1 p.2 = 0).erase (r, c) := by
    ext p
    simp only [Finset.mem_filter, Finset.mem_erase, Finset.mem_product,
      Finset.mem_range]
    constructor
    · rintro ⟨⟨h1, h2⟩, h3⟩
      by_cases hp : p = (r, c)
      · subst hp
        rw [getCell_setCell_self hwf hr hc] at h3
        exact absurd h3 hn
      · have hne : r ≠ p.1 ∨ c ≠ p.2 := pair_ne (by
          intro hh
          exact hp (by
            have e1 : p.1 = r := congrArg Prod.fst hh
            have e2 : p.2 = c := congrArg Prod.snd hh
            exact Prod.ext e1 e2))
        rw [getCell_setCell_ne hne] at h3
        exact ⟨hp, ⟨h1, h2⟩, h3⟩
    · rintro ⟨hp, ⟨h1, h2⟩, h3⟩
      have hne : r ≠ p.1 ∨ c ≠ p.2 := pair_ne (by
        intro hh
        exact hp (by
          have e1 : p.1 = r := congrArg Prod.fst hh
          have e2 : p.2 = c := congrArg Prod.snd hh
          exact Prod.ext e1 e2))
      exact ⟨⟨h1, h2⟩, by rwa [getCell_setCell_ne hne]⟩
  rw [hset]
  have hmem : (r, c) ∈ ((Finset.range 9) ×ˢ (Finset.range 9)).filter
      fun p => getCell g p.1 p.2 = 0 := by
    simp only [Finset.mem_filter, Finset.mem_product, Finset.mem_range]
    exact ⟨⟨hr, hc⟩, h0⟩
  rw [Finset.card_erase_of_mem hmem]
  have : 0 < (((Finset.range 9) ×ˢ (Finset.range 9)).filter
      fun p => getCell g p.1 p.2 = 0).card := Finset.card_pos.mpr ⟨_, hmem⟩
  omega

/-! ### Unconditional inverse of a speculative placement

`grid[r][c] = n; ...; grid[r][c] = 0` restores the grid whenever the
cell was empty before, for any list shape. -/

theorem rows_set_getD_self {g : Grid} {r : Nat} (hr : r < g.length) :
    g.set r (g.getD r []) = g := by
  apply List.ext_getElem (by simp)
  intro i h1 h2
  rcases Nat.decEq r i with hri | hri
  · rw [List.getElem_set_ne hri]
  · subst hri
    rw [List.getElem_set_self]
    exact List.getD_eq_getElem g [] h2

theorem row_set_zero_self {l : List Nat} {c : Nat} (h : l.getD c 0 = 0) :
    l.set c 0 = l := by
  apply List.ext_getElem (by simp)
  intro i h1 h2
  rcases Nat.decEq c i with hci | hci
  · rw [List.getElem_set_ne hci]
  · subst hci
    rw [List.getElem_set_self]
    have := List.getD_eq_getElem l 0 h2
    omega

theorem row_set_set {α : Type} {l : List α} (c : Nat) (a b : α) :
    (l.set c a).set c b = l.set c b := by
  apply List.ext_getElem (by simp)
  intro i h1 h2
  rcases Nat.decEq c i with hci | hci
  · rw [List.getElem_set_ne hci, List.getElem_set_ne hci,
      List.getElem_set_ne hci]
  · subst hci
    rw [List.getElem_set_self, List.getElem_set_self]

theorem setCell_cancel {g : Grid} {r c : Nat} (v : Nat)
    (h0 : getCell g r c = 0) :
    setCell (setCell g r c v) r c 0 = g := by
  by_cases hr : r < g.length
  · by_cases hc : c < (g.getD r []).length
    · unfold setCell
      rw [getD_rows_set _ hr, row_set_set, row_set_set, row_set_zero_self h0]
      exact rows_set_getD_self hr
    · have h1 : setCell g r c v = g := by
        unfold setCell
        rw [List.set_eq_of_length_le (le_of_not_lt hc)]
        exact rows_set_getD_self hr
      rw [h1]
      unfold setCell
      rw [List.set_eq_of_length_le (le_of_not_lt hc)]
      exact rows_set_getD_self hr
  · unfold setCell
    rw [List.set_eq_of_length_le (le_of_not_lt hr),
      List.set_eq_of_length_le (le_of_not_lt hr)]

/-! ### The Solution Counters

`_countSolutions` of the Dart VM and `countSolutions` of `script.js` /
the second web variant.  The in-place mutation of the shared grid is
embedded by threading the grid through every step; the Dart recursion
returns its stop flag, grid, and counter; the JS recursion returns grid
and counter and re-checks `count >= limit` where the code does. -/

/-- The digit loop `for (int n = 1; n <= 9; n++)` of `_countSolutions`:
place `n` if legal, run `next` (the recursive call on smaller fuel),
undo the placement, and stop as soon as the child signalled stop. -/
def countDigitsD (next : Grid → Nat → Bool × Grid × Nat) (r c : Nat) :
    Grid → Nat → List Nat → Bool × Grid × Nat
  | g, count, [] => (false, g, count)
  | g, count, n :: ns =>
    if canPlace g r c n then
      match next (setCell g r c n) count with
      | (stop, g1, c1) =>
        let g2 := setCell g1 r c 0
        if stop then (true, g2, c1) else countDigitsD next r c g2 c1 ns
    else countDigitsD next r c g count ns

/-- Embeds `solveNext` of `_countSolutions`: find the first empty cell; if none,
count the full assignment and report whether the limit is reached;
otherwise run the digit loop.  `fuel` bounds the recursion depth (one
empty cell is filled per level, so `countZeros g` suffices). -/
def solveNextD (limit : Nat) : Nat → Grid → Nat → Bool × Grid × Nat
  | fuel, g, count =>
    match findFirstEmpty g with
    | none => (decide (limit ≤ count + 1), g, count + 1)
    | some (r, c) =>
      match fuel with
      | 0 => (false, g, count)
      | f + 1 =>
        countDigitsD (fun g' count' => solveNextD limit f g' count') r c g
          count digits19

/-- Embeds `_countSolutions(g, limit)` of the Dart VM. -/
def countSolutionsD (g : Grid) (limit : Nat) : Nat :=
  (solveNextD limit 81 g 0).2.2

/-- The digit loop of `countSolutions` (`script.js`): place, recurse,
undo, and return early once `count >= limit`. -/
def countDigitsJS (limit : Nat) (next : Grid → Nat → Grid × Nat)
    (r c : Nat) : Grid → Nat → List Nat → Grid × Nat
  | g, count, [] => (g, count)
  | g, count, n :: ns =>
    if canPlace g r c n then
      match next (setCell g r c n) count with
      | (g1, c1) =>
        let g2 := setCell g1 r c 0
        if limit ≤ c1 then (g2, c1) else countDigitsJS limit next r c g2 c1 ns
    else countDigitsJS limit next r c g count ns

/-- Embeds `backtrack` of `countSolutions` (`script.js`): entry guard
`if (count >= limit) return`, then first-empty scan and digit loop. -/
def backtrackJS (limit : Nat) : Nat → Grid → Nat → Grid × Nat
  | fuel, g, count =>
    if limit ≤ count then (g, count)
    else
      match findFirstEmpty g with
      | none => (g, count + 1)
      | some (r, c) =>
        match fuel with
        | 0 => (g, count)
        | f + 1 =>
          countDigitsJS limit (fun g' count' => backtrackJS limit f g' count')
            r c g count digits19

/-- Embeds `countSolutions(g, limit)` of `script.js`. -/
def countSolutionsJS (g : Grid) (limit : Nat) : Nat :=
  (backtrackJS limit 81 g 0).2

/-! ### The counters restore their grid (frame property) -/

theorem countDigitsD_frame {next : Grid → Nat → Bool × Grid × Nat}
    (hnext : ∀ g' count', (next g' count').2.1 = g') {r c : Nat}
    (ds : List Nat) :
    ∀ g count, getCell g r c = 0 →
      (countDigitsD next r c g count ds).2.1 = g := by
  induction ds with
  | nil => intro g count _; rfl
  | cons n ns ih =>
    intro g count h0
    show (countDigitsD next r c g count (n :: ns)).2.1 = g
    rw [countDigitsD]
    by_cases hcp : canPlace g r c n
    · rw [if_pos hcp]
      have hg1 := hnext (setCell g r c n) count
      rcases hres : next (setCell g r c n) count with ⟨stop, g1, c1⟩
      rw [hres] at hg1
      simp only at hg1
      have hg2 : setCell g1 r c 0 = g := by rw [hg1]; exact setCell_cancel n h0
      cases stop with
      | true => simpa using hg2
      | false =>
        simp only
        rw [hg2]
        exact ih g c1 h0
    · rw [if_neg hcp]
      exact ih g count h0

theorem solveNextD_frame (limit : Nat) :
    ∀ fuel g count, (solveNextD limit fuel g count).2.1 = g := by
  intro fuel
  induction fuel with
  | zero =>
    intro g count
    rw [solveNextD]
    cases hfe : findFirstEmpty g with
    | none => rfl
    | some p => rcases p with ⟨r, c⟩; rfl
  | succ f ih =>
    intro g count
    rw [solveNextD]
    cases hfe : findFirstEmpty g with
    | none => rfl
    | some p =>
      rcases p with ⟨r, c⟩
      obtain ⟨_, _, h0⟩ := findFirstEmpty_some hfe
      exact countDigitsD_frame (fun g' c' => ih g' c') digits19 g count h0

theorem countDigitsJS_frame {limit : Nat} {next : Grid → Nat → Grid × Nat}
    (hnext : ∀ g' count', (next g' count').1 = g') {r c : Nat}
    (ds : List Nat) :
    ∀ g count, getCell g r c = 0 →
      (countDigitsJS limit next r c g count ds).1 = g := by
  induction ds with
  | nil => intro g count _; rfl
  | cons n ns ih =>
    intro g count h0
    rw [countDigitsJS]
    by_cases hcp : canPlace g r c n
    · rw [if_pos hcp]
      have hg1 := hnext (setCell g r c n) count
      rcases hres : next (setCell g r c n) count with ⟨g1, c1⟩
      rw [hres] at hg1
      simp only at hg1
      have hg2 : setCell g1 r c 0 = g := by rw [hg1]; exact setCell_cancel n h0
      by_cases hlim : limit ≤ c1
      · simpa [hlim] using hg2
      · simp only [if_neg hlim]
        rw [hg2]
        exact ih g c1 h0
    · rw [if_neg hcp]
      exact ih g count h0

theorem backtrackJS_frame (limit : Nat) :
    ∀ fuel g count, (backtrackJS limit fuel g count).1 = g := by
  intro fuel
  induction fuel with
  | zero =>
    intro g count
    rw [backtrackJS]
    by_cases hlim : limit ≤ count
    · rw [if_pos hlim]
    · rw [if_neg hlim]
      cases hfe : findFirstEmpty g with
      | none => rfl
      | some p => rcases p with ⟨r, c⟩; rfl
  | succ f ih =>
    intro g count
    rw [backtrackJS]
    by_cases hlim : limit ≤ count
    · rw [if_pos hlim]
    · rw [if_neg hlim]
      cases hfe : findFirstEmpty g with
      | none => rfl
      | some p =>
        rcases p with ⟨r, c⟩
        obtain ⟨_, _, h0⟩ := findFirstEmpty_some hfe
        exact countDigitsJS_frame (fun g' c' => ih g' c') digits19 g count h0

/-! ### Specification-side enumeration of completions

`completionsList` enumerates, in the counters' own search order, the
full assignments their backtracking visits.  It is related on the one
hand to the counters (they compute `min limit` of its length) and on the
other hand to the specification predicate `isCompletion` (for grids
whose filled cells are themselves consistent 1..9 digits it enumerates
exactly the completions, without duplicates). -/

def completionsDigits (next : Grid → List Grid) (r c : Nat) (g : Grid) :
    List Nat → List Grid
  | [] => []
  | n :: ns =>
    (if canPlace g r c n then next (setCell g r c n) else []) ++
      completionsDigits next r c g ns

def completionsList : Nat → Grid → List Grid
  | fuel, g =>
    match findFirstEmpty g with
    | none => [g]
    | some (r, c) =>
      match fuel with
      | 0 => []
      | f + 1 => completionsDigits (completionsList f) r c g digits19

theorem mem_digits19 {n : Nat} : n ∈ digits19 ↔ 1 ≤ n ∧ n ≤ 9 := by
  simp only [digits19, List.mem_cons, List.not_mem_nil, or_false]
  omega

theorem mem_completionsDigits {next : Grid → List Grid} {r c : Nat}
    {g K : Grid} {ds : List Nat} :
    K ∈ completionsDigits next r c g ds ↔
      ∃ n ∈ ds, canPlace g r c n = true ∧ K ∈ next (setCell g r c n) := by
  induction ds with
  | nil => simp [completionsDigits]
  | cons m ms ih =>
    rw [completionsDigits, List.mem_append, ih]
    constructor
    · rintro (hK | ⟨n, hn, hcp, hK⟩)
      · by_cases hcp : canPlace g r c m
        · rw [if_pos hcp] at hK
          exact ⟨m, List.mem_cons_self m ms, hcp, hK⟩
        · rw [if_neg hcp] at hK
          exact absurd hK (List.not_mem_nil K)
      · exact ⟨n, List.mem_cons_of_mem m hn, hcp, hK⟩
    · rintro ⟨n, hn, hcp, hK⟩
      rcases List.mem_cons.mp hn with hnm | hn

      · subst hnm
        exact Or.inl (by rwa [if_pos hcp])
      · exact Or.inr ⟨n, hn, hcp, hK⟩

theorem extends_of_mem_completionsList :
    ∀ fuel g K, K ∈ completionsList fuel g → extendsGrid g K = true := by
  intro fuel
  induction fuel with
  | zero =>
    intro g K hK
    rw [completionsList] at hK
    cases hfe : findFirstEmpty g with
    | none =>
      rw [hfe] at hK
      rw [List.mem_singleton.mp hK]
      exact extendsGrid_refl g
    | some p =>
      rcases p with ⟨r, c⟩
      rw [hfe] at hK
      exact absurd hK (List.not_mem_nil K)
  | succ f ih =>
    intro g K hK
    rw [completionsList] at hK
    cases hfe : findFirstEmpty g with
    | none =>
      rw [hfe] at hK
      rw [List.mem_singleton.mp hK]
      exact extendsGrid_refl g
    | some p =>
      rcases p with ⟨r, c⟩
      rw [hfe] at hK
      obtain ⟨_, _, h0⟩ := findFirstEmpty_some hfe
      obtain ⟨n, _, _, hK⟩ := mem_completionsDigits.mp hK
      exact extendsGrid_of_setCell h0 (ih _ K hK)

theorem grid_ext {g K : Grid} (hg : wfGrid g = true) (hK : wfGrid K = true)
    (h : ∀ r c, r < 9 → c < 9 → getCell g r c = getCell K r c) : g = K := by
  simp only [wfGrid, Bool.and_eq_true, beq_iff_eq, List.all_eq_true,
    List.mem_range] at hg hK
  apply List.ext_getElem (by omega)
  intro r h1 h2
  have hr9 : r < 9 := by omega
  apply List.ext_getElem
  · have e1 : g[r] = g.getD r [] := (List.getD_eq_getElem g [] h1).symm
    have e2 : K[r] = K.getD r [] := (List.getD_eq_getElem K [] h2).symm
    rw [e1, e2, hg.2 r hr9, hK.2 r hr9]
  · intro c hc1 hc2
    have hc9 : c < 9 := by
      have : g[r] = g.getD r [] := (List.getD_eq_getElem g [] h1).symm
      rw [this, hg.2 r hr9] at hc1
      exact hc1
    have := h r c hr9 hc9
    unfold getCell at this
    rw [List.getD_eq_getElem g [] h1, List.getD_eq_getElem K [] h2] at this
    have e1 : (g[r]).getD c 0 = g[r][c] :=
      List.getD_eq_getElem _ 0 (by
        have : g[r] = g.getD r [] := (List.getD_eq_getElem g [] h1).symm
        rw [this, hg.2 r hr9]; exact hc9)
    have e2 : (K[r]).getD c 0 = K[r][c] :=
      List.getD_eq_getElem _ 0 (by
        have : K[r] = K.getD r [] := (List.getD_eq_getElem K [] h2).symm
        rw [this, hK.2 r hr9]; exact hc9)
    rw [e1, e2] at this
    exact this

theorem isCompletion_self {g : Grid} (hwf : wfGrid g = true)
    (hcons : consistent g = true) (hd : digitsOk g = true)
    (hfull : fullGrid g = true) : isCompletion g g = true := by
  unfold isCompletion
  rw [hwf, extendsGrid_refl, hfull, hd, hcons]
  rfl

theorem isCompletion_of_setCell {g K : Grid} {r c n : Nat}
    (h0 : getCell g r c = 0)
    (h : isCompletion (setCell g r c n) K = true) :
    isCompletion g K = true := by
  unfold isCompletion at h ⊢
  simp only [Bool.and_eq_true] at h ⊢
  exact ⟨⟨⟨⟨h.1.1.1.1, extendsGrid_of_setCell h0 h.1.1.1.2⟩, h.1.1.2⟩,
    h.1.2⟩, h.2⟩

theorem completionsList_sound :
    ∀ fuel g K, wfGrid g = true → consistent g = true → digitsOk g = true →
      K ∈ completionsList fuel g → isCompletion g K = true := by
  intro fuel
  induction fuel with
  | zero =>
    intro g K hwf hcons hd hK
    rw [completionsList] at hK
    cases hfe : findFirstEmpty g with
    | none =>
      rw [hfe] at hK
      rw [List.mem_singleton.mp hK]
      exact isCompletion_self hwf hcons hd (findFirstEmpty_none hfe)
    | some p =>
      rcases p with ⟨r, c⟩
      rw [hfe] at hK
      exact absurd hK (List.not_mem_nil K)
  | succ f ih =>
    intro g K hwf hcons hd hK
    rw [completionsList] at hK
    cases hfe : findFirstEmpty g with
    | none =>
      rw [hfe] at hK
      rw [List.mem_singleton.mp hK]
      exact isCompletion_self hwf hcons hd (findFirstEmpty_none hfe)
    | some p =>
      rcases p with ⟨r, c⟩
      rw [hfe] at hK
      obtain ⟨hr, hc, h0⟩ := findFirstEmpty_some hfe
      obtain ⟨n, hn, hcp, hK⟩ := mem_completionsDigits.mp hK
      obtain ⟨hn1, hn9⟩ := mem_digits19.mp hn
      exact isCompletion_of_setCell h0
        (ih (setCell g r c n) K (wfGrid_setCell hwf r c n)
          (consistent_setCell hwf hr hc hcons hcp)
          (digitsOk_setCell hd hn9 r c) hK)

theorem completionsList_complete :
    ∀ fuel g K, wfGrid g = true → countZeros g ≤ fuel →
      isCompletion g K = true → K ∈ completionsList fuel g := by
  intro fuel
  induction fuel with
  | zero =>
    intro g K hwf hfuel hK
    rw [completionsList]
    cases hfe : findFirstEmpty g with
    | none =>
      unfold isCompletion at hK
      simp only [Bool.and_eq_true] at hK
      rw [List.mem_singleton]
      refine (grid_ext hwf hK.1.1.1.1 ?_).symm
      intro r c hr hc
      by_cases h0 : getCell g r c = 0
      · exfalso
        have hfull := findFirstEmpty_none hfe
        simp only [fullGrid, List.all_eq_true, List.mem_range, bne_iff_ne]
          at hfull
        exact hfull r hr c hc h0
      · exact (extendsGrid_spec.mp hK.1.1.1.2 r c hr hc h0).symm
    | some p =>
      rcases p with ⟨r, c⟩
      exfalso
      obtain ⟨hr, hc, h0⟩ := findFirstEmpty_some hfe
      have : (r, c) ∈ ((Finset.range 9) ×ˢ (Finset.range 9)).filter
          (fun p => getCell g p.1 p.2 = 0) := by
        simp only [Finset.mem_filter, Finset.mem_product, Finset.mem_range]
        exact ⟨⟨hr, hc⟩, h0⟩
      have : 0 < countZeros g := Finset.card_pos.mpr ⟨_, this⟩
      omega
  | succ f ih =>
    intro g K hwf hfuel hK
    rw [completionsList]
    cases hfe : findFirstEmpty g with
    | none =>
      unfold isCompletion at hK
      simp only [Bool.and_eq_true] at hK
      rw [List.mem_singleton]
      refine (grid_ext hwf hK.1.1.1.1 ?_).symm
      intro r c hr hc
      by_cases h0 : getCell g r c = 0
      · exfalso
        have hfull := findFirstEmpty_none hfe
        simp only [fullGrid, List.all_eq_true, List.mem_range, bne_iff_ne]
          at hfull
        exact hfull r hr c hc h0
      · exact (extendsGrid_spec.mp hK.1.1.1.2 r c hr hc h0).symm
    | some p =>
      rcases p with ⟨r, c⟩
      obtain ⟨hr, hc, h0⟩ := findFirstEmpty_some hfe
      have hKparts : wfGrid K = true ∧ extendsGrid g K = true ∧
          fullGrid K = true ∧ digitsOk K = true ∧ consistent K = true := by
        unfold isCompletion at hK
        simp only [Bool.and_eq_true] at hK
        exact ⟨hK.1.1.1.1, hK.1.1.1.2, hK.1.1.2, hK.1.2, hK.2⟩
      obtain ⟨hKwf, hKext, hKfull, hKd, hKcons⟩ := hKparts
      have hnz : getCell K r c ≠ 0 := by
        simp only [fullGrid, List.all_eq_true, List.mem_range, bne_iff_ne]
          at hKfull
        exact hKfull r hr c hc
      have hn9 : getCell K r c ≤ 9 := by
        simp only [digitsOk, List.all_eq_true, List.mem_range,
          decide_eq_true_eq] at hKd
        exact hKd r hr c hc
      have hnmem : getCell K r c ∈ digits19 := mem_digits19.mpr ⟨by omega, hn9⟩
      have hcp : canPlace g r c (getCell K r c) = true := by
        rw [canPlace_spec hr hc]
        intro r' c' hr' hc' hunit heq
        have hgnz : getCell g r' c' ≠ 0 := by rw [heq]; exact hnz
        have hKeq : getCell K r' c' = getCell K r c := by
          rw [extendsGrid_spec.mp hKext r' c' hr' hc' hgnz, heq]
        have hne : (r, c) ≠ (r', c') := by
          intro hpair
          have e1 : r = r' := congrArg Prod.fst hpair
          have e2 : c = c' := congrArg Prod.snd hpair
          rw [← e1, ← e2] at heq
          omega
        exact consistent_spec.mp hKcons r c r' c' hr hc hr' hc' hne hunit hnz
          hKeq.symm
      have hext2 : extendsGrid (setCell g r c (getCell K r c)) K = true := by
        rw [extendsGrid_spec]
        intro a b ha hb hnzb
        by_cases hab : r = a ∧ c = b
        · obtain ⟨e1, e2⟩ := hab
          subst e1; subst e2
          rw [getCell_setCell_self hwf hr hc]
        · have hne : r ≠ a ∨ c ≠ b := by tauto
          rw [getCell_setCell_ne hne] at hnzb ⊢
          exact extendsGrid_spec.mp hKext a b ha hb hnzb
      have hKc : isCompletion (setCell g r c (getCell K r c)) K = true := by
        unfold isCompletion
        rw [hKwf, hext2, hKfull, hKd, hKcons]
        rfl
      show K ∈ completionsDigits (completionsList f) r c g digits19
      apply mem_completionsDigits.mpr
      refine ⟨getCell K r c, hnmem, hcp, ?_⟩
      apply ih (setCell g r c (getCell K r c)) K (wfGrid_setCell hwf r c _)
        ?_ hKc
      have := countZeros_setCell hwf hr hc h0 hnz
      omega

theorem branch_value_of_mem {f : Nat} {g K : Grid} {r c n : Nat}
    (hwf : wfGrid g = true) (hr : r < 9) (hc : c < 9) (hn : n ≠ 0)
    (hK : K ∈ completionsList f (setCell g r c n)) :
    getCell K r c = n :=
  getCell_of_extends_setCell hwf hr hc hn
    (extends_of_mem_completionsList f _ K hK)

theorem completionsDigits_nodup {f : Nat} {g : Grid} {r c : Nat}
    (hwf : wfGrid g = true) (hr : r < 9) (hc : c < 9)
    (hbranch : ∀ g', wfGrid g' = true → (completionsList f g').Nodup) :
    ∀ ds : List Nat, ds.Nodup → (∀ n ∈ ds, n ≠ 0) →
      (completionsDigits (completionsList f) r c g ds).Nodup := by
  intro ds
  induction ds with
  | nil => intro _ _; exact List.nodup_nil
  | cons n ns ih =>
    intro hnd hnz
    rw [completionsDigits]
    apply List.Nodup.append
    · by_cases hcp : canPlace g r c n
      · rw [if_pos hcp]
        exact hbranch _ (wfGrid_setCell hwf r c n)
      · rw [if_neg hcp]
        exact List.nodup_nil
    · exact ih (List.Nodup.of_cons hnd) fun m hm => hnz m (List.mem_cons_of_mem n hm)
    · intro K hK1 hK2
      by_cases hcp : canPlace g r c n
      · rw [if_pos hcp] at hK1
        have hvn : getCell K r c = n :=
          branch_value_of_mem hwf hr hc (hnz n (List.mem_cons_self n ns)) hK1
        obtain ⟨m, hm, hcpm, hKm⟩ := mem_completionsDigits.mp hK2
        have hvm : getCell K r c = m :=
          branch_value_of_mem hwf hr hc (hnz m (List.mem_cons_of_mem n hm)) hKm
        have : n ≠ m := by
          intro hnm
          subst hnm
          exact (List.nodup_cons.mp hnd).1 hm
        omega
      · rw [if_neg hcp] at hK1
        exact absurd hK1 (List.not_mem_nil K)

theorem completionsList_nodup :
    ∀ fuel g, wfGrid g = true → (completionsList fuel g).Nodup := by
  intro fuel
  induction fuel with
  | zero =>
    intro g hwf
    rw [completionsList]
    cases findFirstEmpty g with
    | none => exact List.nodup_singleton g
    | some p => rcases p with ⟨r, c⟩; exact List.nodup_nil
  | succ f ih =>
    intro g hwf
    rw [completionsList]
    cases hfe : findFirstEmpty g with
    | none => exact List.nodup_singleton g
    | some p =>
      rcases p with ⟨r, c⟩
      obtain ⟨hr, hc, _⟩ := findFirstEmpty_some hfe
      exact completionsDigits_nodup hwf hr hc (fun g' hg' => ih g' hg')
        digits19 (by decide) (by decide)

/-! ### The counters compute `min limit (number of enumerated completions)` -/

def digitsLen (lenf : Grid → Nat) (r c : Nat) (g : Grid) : List Nat → Nat
  | [] => 0
  | n :: ns =>
    (if canPlace g r c n then lenf (setCell g r c n) else 0) +
      digitsLen lenf r c g ns

theorem completionsDigits_length {next : Grid → List Grid} {r c : Nat}
    {g : Grid} :
    ∀ ds, (completionsDigits next r c g ds).length =
      digitsLen (fun g' => (next g').length) r c g ds := by
  intro ds
  induction ds with
  | nil => rfl
  | cons n ns ih =>
    rw [completionsDigits, digitsLen, List.length_append, ih]
    by_cases hcp : canPlace g r c n
    · rw [if_pos hcp, if_pos hcp]
    · rw [if_neg hcp, if_neg hcp]
      rfl

theorem countDigitsD_spec {limit : Nat}
    {next : Grid → Nat → Bool × Grid × Nat} {lenf : Grid → Nat}
    (hnext : ∀ g' count', count' < limit →
      next g' count' = (decide (limit ≤ count' + lenf g'), g',
        min limit (count' + lenf g')))
    {r c : Nat} {g : Grid} (h0 : getCell g r c = 0) :
    ∀ ds count, count < limit →
      countDigitsD next r c g count ds =
        (decide (limit ≤ count + digitsLen lenf r c g ds), g,
         min limit (count + digitsLen lenf r c g ds)) := by
  intro ds
  induction ds with
  | nil =>
    intro count hcount
    rw [countDigitsD, digitsLen]
    have h1 : decide (limit ≤ count + 0) = false := by
      simp
      omega
    rw [h1]
    have h2 : min limit (count + 0) = count := by omega
    rw [h2]
  | cons n ns ih =>
    intro count hcount
    rw [countDigitsD, digitsLen]
    by_cases hcp : canPlace g r c n
    · rw [if_pos hcp, if_pos hcp]
      rw [hnext (setCell g r c n) count hcount]
      simp only
      rw [setCell_cancel n h0]
      by_cases hstop : limit ≤ count + lenf (setCell g r c n)
      · rw [if_pos (by simpa using hstop)]
        have e1 : min limit (count + lenf (setCell g r c n)) = limit := by
          omega
        have e2 : decide (limit ≤ count +
            (lenf (setCell g r c n) + digitsLen lenf r c g ns)) = true := by
          simp
          omega
        have e3 : min limit (count +
            (lenf (setCell g r c n) + digitsLen lenf r c g ns)) = limit := by
          omega
        rw [e1, e2, e3]
      · rw [if_neg (by simpa using hstop)]
        have e1 : min limit (count + lenf (setCell g r c n)) =
            count + lenf (setCell g r c n) := by omega
        rw [e1, ih (count + lenf (setCell g r c n)) (by omega)]
        have e2 : count + lenf (setCell g r c n) + digitsLen lenf r c g ns =
            count + (lenf (setCell g r c n) + digitsLen lenf r c g ns) := by
          omega
        rw [e2]
    · rw [if_neg hcp, if_neg hcp]
      have : (0 : Nat) + digitsLen lenf r c g ns = digitsLen lenf r c g ns := by
        omega
      rw [this]
      exact ih count hcount

theorem solveNextD_spec (limit : Nat) :
    ∀ fuel g count, count < limit →
      solveNextD limit fuel g count =
        (decide (limit ≤ count + (completionsList fuel g).length), g,
         min limit (count + (completionsList fuel g).length)) := by
  intro fuel
  induction fuel with
  | zero =>
    intro g count hcount
    rw [solveNextD, completionsList]
    cases hfe : findFirstEmpty g with
    | none =>
      show (decide (limit ≤ count + 1), g, count + 1) =
        (decide (limit ≤ count + 1), g, min limit (count + 1))
      have : min limit (count + 1) = count + 1 := by omega
      rw [this]
    | some p =>
      rcases p with ⟨r, c⟩
      show (false, g, count) =
        (decide (limit ≤ count + 0), g, min limit (count + 0))
      have h1 : decide (limit ≤ count + 0) = false := by simp; omega
      have h2 : min limit (count + 0) = count := by omega
      rw [h1, h2]
  | succ f ih =>
    intro g count hcount
    rw [solveNextD, completionsList]
    cases hfe : findFirstEmpty g with
    | none =>
      show (decide (limit ≤ count + 1), g, count + 1) =
        (decide (limit ≤ count + 1), g, min limit (count + 1))
      have : min limit (count + 1) = count + 1 := by omega
      rw [this]
    | some p =>
      rcases p with ⟨r, c⟩
      obtain ⟨hr, hc, h0⟩ := findFirstEmpty_some hfe
      show countDigitsD (fun g' count' => solveNextD limit f g' count') r c g
          count digits19 =
        (decide (limit ≤ count +
          (completionsDigits (completionsList f) r c g digits19).length), g,
         min limit (count +
          (completionsDigits (completionsList f) r c g digits19).length))
      rw [countDigitsD_spec (fun g' c' hc' => ih g' c' hc') h0 digits19 count
        hcount, completionsDigits_length]

theorem countDigitsJS_spec {limit : Nat}
    {next : Grid → Nat → Grid × Nat} {lenf : Grid → Nat}
    (hnext : ∀ g' count', count' ≤ limit →
      next g' count' = (g', min limit (count' + lenf g')))
    {r c : Nat} {g : Grid} (h0 : getCell g r c = 0) :
    ∀ ds count, count < limit →
      countDigitsJS limit next r c g count ds =
        (g, min limit (count + digitsLen lenf r c g ds)) := by
  intro ds
  induction ds with
  | nil =>
    intro count hcount
    rw [countDigitsJS, digitsLen]
    have h2 : min limit (count + 0) = count := by omega
    rw [h2]
  | cons n ns ih =>
    intro count hcount
    rw [countDigitsJS, digitsLen]
    by_cases hcp : canPlace g r c n
    · rw [if_pos hcp, if_pos hcp]
      rw [hnext (setCell g r c n) count (by omega)]
      simp only
      rw [setCell_cancel n h0]
      by_cases hstop : limit ≤ count + lenf (setCell g r c n)
      · rw [if_pos (by omega)]
        have e1 : min limit (count + lenf (setCell g r c n)) = limit := by
          omega
        have e3 : min limit (count +
            (lenf (setCell g r c n) + digitsLen lenf r c g ns)) = limit := by
          omega
        rw [e1, e3]
      · rw [if_neg (by omega)]
        have e1 : min limit (count + lenf (setCell g r c n)) =
            count + lenf (setCell g r c n) := by omega
        rw [e1, ih (count + lenf (setCell g r c n)) (by omega)]
        have e2 : count + lenf (setCell g r c n) + digitsLen lenf r c g ns =
            count + (lenf (setCell g r c n) + digitsLen lenf r c g ns) := by
          omega
        rw [e2]
    · rw [if_neg hcp, if_neg hcp]
      have : (0 : Nat) + digitsLen lenf r c g ns = digitsLen lenf r c g ns := by
        omega
      rw [this]
      exact ih count hcount

theorem backtrackJS_spec (limit : Nat) :
    ∀ fuel g count, count ≤ limit →
      backtrackJS limit fuel g count =
        (g, min limit (count + (completionsList fuel g).length)) := by
  intro fuel
  induction fuel with
  | zero =>
    intro g count hcount
    rw [backtrackJS, completionsList]
    cases hfe : findFirstEmpty g with
    | none =>
      by_cases hlim : limit ≤ count
      · rw [if_pos hlim]
        show (g, count) = (g, min limit (count + 1))
        have : min limit (count + 1) = count := by omega
        rw [this]
      · rw [if_neg hlim]
        show (g, count + 1) = (g, min limit (count + 1))
        have : min limit (count + 1) = count + 1 := by omega
        rw [this]
    | some p =>
      rcases p with ⟨r, c⟩
      by_cases hlim : limit ≤ count
      · rw [if_pos hlim]
        show (g, count) = (g, min limit (count + 0))
        have : min limit (count + 0) = count := by omega
        rw [this]
      · rw [if_neg hlim]
        show (g, count) = (g, min limit (count + 0))
        have : min limit (count + 0) = count := by omega
        rw [this]
  | succ f ih =>
    intro g count hcount
    rw [backtrackJS, completionsList]
    cases hfe : findFirstEmpty g with
    | none =>
      by_cases hlim : limit ≤ count
      · rw [if_pos hlim]
        show (g, count) = (g, min limit (count + 1))
        have : min limit (count + 1) = count := by omega
        rw [this]
      · rw [if_neg hlim]
        show (g, count + 1) = (g, min limit (count + 1))
        have : min limit (count + 1) = count + 1 := by omega
        rw [this]
    | some p =>
      rcases p with ⟨r, c⟩
      obtain ⟨hr, hc, h0⟩ := findFirstEmpty_some hfe
      by_cases hlim : limit ≤ count
      · rw [if_pos hlim]
        show (g, count) = (g, min limit (count +
          (completionsDigits (completionsList f) r c g digits19).length))
        have : min limit (count +
            (completionsDigits (completionsList f) r c g digits19).length) =
            count := by omega
        rw [this]
      · rw [if_neg hlim]
        show countDigitsJS limit (fun g' count' => backtrackJS limit f g'
            count') r c g count digits19 =
          (g, min limit (count +
            (completionsDigits (completionsList f) r c g digits19).length))
        rw [countDigitsJS_spec (fun g' c' hc' => ih g' c' hc') h0 digits19
          count (by omega), completionsDigits_length]

theorem completions_card {g : Grid} (hwf : wfGrid g = true)
    (hcons : consistent g = true) (hd : digitsOk g = true) :
    Nat.card {K : Grid // isCompletion g K = true} =
      (completionsList 81 g).length := by
  have hmem : ∀ K, K ∈ completionsList 81 g ↔ isCompletion g K = true :=
    fun K => ⟨completionsList_sound 81 g K hwf hcons hd,
      completionsList_complete 81 g K hwf countZeros_le⟩
  have hnd : (completionsList 81 g).Nodup := completionsList_nodup 81 g hwf
  calc Nat.card {K : Grid // isCompletion g K = true}
      = Nat.card {K : Grid // K ∈ completionsList 81 g} :=
        Nat.card_congr (Equiv.subtypeEquivRight fun K => (hmem K).symm)
    _ = Nat.card {K : Grid // K ∈ (completionsList 81 g).toFinset} :=
        Nat.card_congr (Equiv.subtypeEquivRight fun K =>
          (List.mem_toFinset).symm)
    _ = (completionsList 81 g).toFinset.card := Nat.card_eq_finsetCard _
    _ = (completionsList 81 g).length := List.toFinset_card_of_nodup hnd

/-! ### Concrete grids used by witnesses and counterexamples -/

/-- A valid solved grid. -/
def solvedGridA : Grid :=
  [[1, 2, 3, 4, 5, 6, 7, 8, 9],
   [4, 5, 6, 7, 8, 9, 1, 2, 3],
   [7, 8, 9, 1, 2, 3, 4, 5, 6],
   [2, 3, 1, 5, 6, 4, 8, 9, 7],
   [5, 6, 4, 8, 9, 7, 2, 3, 1],
   [8, 9, 7, 2, 3, 1, 5, 6, 4],
   [3, 1, 2, 6, 4, 5, 9, 7, 8],
   [6, 4, 5, 9, 7, 8, 3, 1, 2],
   [9, 7, 8, 3, 1, 2, 6, 4, 5]]

/-- Grid `solvedGridA` with the digits 1 and 2 interchanged: a different
valid solved grid. -/
def solvedGridB : Grid :=
  [[2, 1, 3, 4, 5, 6, 7, 8, 9],
   [4, 5, 6, 7, 8, 9, 2, 1, 3],
   [7, 8, 9, 2, 1, 3, 4, 5, 6],
   [1, 3, 2, 5, 6, 4, 8, 9, 7],
   [5, 6, 4, 8, 9, 7, 1, 3, 2],
   [8, 9, 7, 1, 3, 2, 5, 6, 4],
   [3, 2, 1, 6, 4, 5, 9, 7, 8],
   [6, 4, 5, 9, 7, 8, 3, 2, 1],
   [9, 7, 8, 3, 2, 1, 6, 4, 5]]

/-- Grid `solvedGridA` with cell (0,1) overwritten by a duplicate 1 and cell
(8,8) emptied: the filled cells are inconsistent (row 0 holds two 1s),
yet exactly one digit fits at (8,8), so the backtracking counters
report one "solution" although no valid completion exists. -/
def gridConflictOneEmpty : Grid :=
  [[1, 1, 3, 4, 5, 6, 7, 8, 9],
   [4, 5, 6, 7, 8, 9, 1, 2, 3],
   [7, 8, 9, 1, 2, 3, 4, 5, 6],
   [2, 3, 1, 5, 6, 4, 8, 9, 7],
   [5, 6, 4, 8, 9, 7, 2, 3, 1],
   [8, 9, 7, 2, 3, 1, 5, 6, 4],
   [3, 1, 2, 6, 4, 5, 9, 7, 8],
   [6, 4, 5, 9, 7, 8, 3, 1, 2],
   [9, 7, 8, 3, 1, 2, 6, 4, 0]]

/-! ### Claim C4 -/

/-- C4 (amended): for every 9×9 grid whose filled cells hold digits at
most 9 and are mutually consistent, and every limit `L ≥ 1`, both
Solution Counters (`_countSolutions` of the Dart VM and
`countSolutions` of `script.js`) return the minimum of `L` and the
number of distinct completions of the grid. -/
theorem counter_min_completions (g : Grid) (limit : Nat)
    (hwf : wfGrid g = true) (hcons : consistent g = true)
    (hd : digitsOk g = true) (hlim : 1 ≤ limit) :
    countSolutionsD g limit =
      min limit (Nat.card {K : Grid // isCompletion g K = true}) ∧
    countSolutionsJS g limit =
      min limit (Nat.card {K : Grid // isCompletion g K = true}) := by
  have hcard := completions_card hwf hcons hd
  constructor
  · unfold countSolutionsD
    rw [solveNextD_spec limit 81 g 0 (by omega)]
    rw [hcard, Nat.zero_add]
  · unfold countSolutionsJS
    rw [backtrackJS_spec limit 81 g 0 (by omega)]
    rw [hcard, Nat.zero_add]

/-- Witness for C4: the hypotheses of `counter_min_completions` are
satisfiable (a valid solved grid with limit 2). -/
theorem counter_min_completions_witness :
    countSolutionsD solvedGridA 2 =
      min 2 (Nat.card {K : Grid // isCompletion solvedGridA K = true}) ∧
    countSolutionsJS solvedGridA 2 =
      min 2 (Nat.card {K : Grid // isCompletion solvedGridA K = true}) :=
  counter_min_completions solvedGridA 2 (by decide) (by decide) (by decide)
    (by omega)

/-- Counterexample to C4 as stated: on a grid whose filled cells are
inconsistent the Dart counter returns 1 although the grid has no
completion at all, so the result is not `min L (number of completions)`
for every partially filled grid. -/
theorem counter_min_completions_counterexample :
    countSolutionsD gridConflictOneEmpty 2 ≠
      min 2 (Nat.card {K : Grid // isCompletion gridConflictOneEmpty K =
        true}) := by
  have hcard : Nat.card {K : Grid // isCompletion gridConflictOneEmpty K =
      true} = 0 := by
    have hempty : IsEmpty {K : Grid // isCompletion gridConflictOneEmpty K =
        true} := by
      constructor
      rintro ⟨K, hK⟩
      unfold isCompletion at hK
      simp only [Bool.and_eq_true] at hK
      obtain ⟨⟨⟨⟨hKwf, hKext⟩, hKfull⟩, hKd⟩, hKcons⟩ := hK
      have h1 : getCell K 0 0 = 1 := by
        have := extendsGrid_spec.mp hKext 0 0 (by omega) (by omega)
          (by decide)
        rw [this]; rfl
      have h2 : getCell K 0 1 = 1 := by
        have := extendsGrid_spec.mp hKext 0 1 (by omega) (by omega)
          (by decide)
        rw [this]; rfl
      have := consistent_spec.mp hKcons 0 0 0 1 (by omega) (by omega)
        (by omega) (by omega) (by decide) (Or.inl rfl) (by rw [h1]; omega)
      rw [h1, h2] at this
      exact this rfl
    exact Nat.card_of_isEmpty
  have hcount : countSolutionsD gridConflictOneEmpty 2 = 1 := by decide
  rw [hcount, hcard]
  decide

/-! ### The Solver

`solveSudoku` of `script.js` (identical in the second web variant):
scan row-major for the first empty cell, try digits 1..9 in order,
place, recurse, undo on failure of the recursive call. -/

def solveDigits (next : Grid → Bool × Grid) (r c : Nat) :
    Grid → List Nat → Bool × Grid
  | g, [] => (false, g)
  | g, n :: ns =>
    if canPlace g r c n then
      match next (setCell g r c n) with
      | (ok, g1) =>
        if ok then (true, g1) else solveDigits next r c (setCell g1 r c 0) ns
    else solveDigits next r c g ns

def solveSudoku : Nat → Grid → Bool × Grid
  | fuel, g =>
    match findFirstEmpty g with
    | none => (true, g)
    | some (r, c) =>
      match fuel with
      | 0 => (false, g)
      | f + 1 => solveDigits (fun g' => solveSudoku f g') r c g digits19

theorem solveSudoku_eq_none (fuel : Nat) {g : Grid}
    (hfe : findFirstEmpty g = none) : solveSudoku fuel g = (true, g) := by
  cases fuel with
  | zero => rw [solveSudoku, hfe]
  | succ f => rw [solveSudoku, hfe]

theorem solveSudoku_eq_zero_some {g : Grid} {r c : Nat}
    (hfe : findFirstEmpty g = some (r, c)) : solveSudoku 0 g = (false, g) := by
  rw [solveSudoku, hfe]

theorem solveSudoku_eq_succ_some {f : Nat} {g : Grid} {r c : Nat}
    (hfe : findFirstEmpty g = some (r, c)) :
    solveSudoku (f + 1) g =
      solveDigits (fun g' => solveSudoku f g') r c g digits19 := by
  rw [solveSudoku, hfe]

theorem solveDigits_cons_pos {next : Grid → Bool × Grid} {r c n : Nat}
    {g : Grid} {ns : List Nat} (hcp : canPlace g r c n = true) :
    solveDigits next r c g (n :: ns) =
      if (next (setCell g r c n)).1 = true then
        (true, (next (setCell g r c n)).2)
      else solveDigits next r c
        (setCell (next (setCell g r c n)).2 r c 0) ns := by
  rw [solveDigits, if_pos hcp]

theorem solveDigits_cons_neg {next : Grid → Bool × Grid} {r c n : Nat}
    {g : Grid} {ns : List Nat} (hcp : ¬canPlace g r c n = true) :
    solveDigits next r c g (n :: ns) = solveDigits next r c g ns := by
  rw [solveDigits, if_neg hcp]

theorem solveDigits_restore {next : Grid → Bool × Grid}
    (hnext : ∀ g', (next g').1 = false → (next g').2 = g') {r c : Nat} :
    ∀ ds g, getCell g r c = 0 →
      (solveDigits next r c g ds).1 = false →
      (solveDigits next r c g ds).2 = g := by
  intro ds
  induction ds with
  | nil => intro g _ _; rfl
  | cons n ns ih =>
    intro g h0 hfail
    by_cases hcp : canPlace g r c n
    · rw [solveDigits_cons_pos hcp] at hfail ⊢
      by_cases hok : (next (setCell g r c n)).1 = true
      · rw [if_pos hok] at hfail
        simp at hfail
      · rw [if_neg hok] at hfail ⊢
        have hfalse : (next (setCell g r c n)).1 = false := by
          revert hok
          cases (next (setCell g r c n)).1 <;> simp
        rw [hnext _ hfalse, setCell_cancel n h0] at hfail ⊢
        exact ih g h0 hfail
    · rw [solveDigits_cons_neg hcp] at hfail ⊢
      exact ih g h0 hfail

theorem solveSudoku_restore :
    ∀ fuel g, (solveSudoku fuel g).1 = false → (solveSudoku fuel g).2 = g := by
  intro fuel
  induction fuel with
  | zero =>
    intro g hfail
    cases hfe : findFirstEmpty g with
    | none => rw [solveSudoku_eq_none 0 hfe] at hfail; simp at hfail
    | some p =>
      rcases p with ⟨r, c⟩
      rw [solveSudoku_eq_zero_some hfe]
  | succ f ih =>
    intro g hfail
    cases hfe : findFirstEmpty g with
    | none => rw [solveSudoku_eq_none (f + 1) hfe] at hfail; simp at hfail
    | some p =>
      rcases p with ⟨r, c⟩
      rw [solveSudoku_eq_succ_some hfe] at hfail ⊢
      obtain ⟨_, _, h0⟩ := findFirstEmpty_some hfe
      exact solveDigits_restore (fun g' => ih g') digits19 g h0 hfail

theorem solveDigits_success {next : Grid → Bool × Grid}
    (hrestore : ∀ g', (next g').1 = false → (next g').2 = g')
    (hsucc : ∀ g', wfGrid g' = true → consistent g' = true →
      digitsOk g' = true → (next g').1 = true →
      isCompletion g' (next g').2 = true)
    {r c : Nat} (hr : r < 9) (hc : c < 9) :
    ∀ ds g, (∀ n ∈ ds, n ∈ digits19) → getCell g r c = 0 →
      wfGrid g = true → consistent g = true → digitsOk g = true →
      (solveDigits next r c g ds).1 = true →
      isCompletion g (solveDigits next r c g ds).2 = true := by
  intro ds
  induction ds with
  | nil => intro g _ _ _ _ _ hok; simp [solveDigits] at hok
  | cons n ns ih =>
    intro g hds h0 hwf hcons hd hok
    by_cases hcp : canPlace g r c n
    · rw [solveDigits_cons_pos hcp] at hok ⊢
      obtain ⟨hn1, hn9⟩ := mem_digits19.mp (hds n (List.mem_cons_self n ns))
      by_cases hokn : (next (setCell g r c n)).1 = true
      · rw [if_pos hokn] at hok ⊢
        exact isCompletion_of_setCell h0
          (hsucc (setCell g r c n) (wfGrid_setCell hwf r c n)
            (consistent_setCell hwf hr hc hcons hcp)
            (digitsOk_setCell hd hn9 r c) hokn)
      · rw [if_neg hokn] at hok ⊢
        have hfalse : (next (setCell g r c n)).1 = false := by
          revert hokn
          cases (next (setCell g r c n)).1 <;> simp
        rw [hrestore _ hfalse, setCell_cancel n h0] at hok ⊢
        exact ih g (fun m hm => hds m (List.mem_cons_of_mem n hm)) h0 hwf
          hcons hd hok
    · rw [solveDigits_cons_neg hcp] at hok ⊢
      exact ih g (fun m hm => hds m (List.mem_cons_of_mem n hm)) h0 hwf hcons
        hd hok

theorem solveSudoku_success :
    ∀ fuel g, wfGrid g = true → consistent g = true → digitsOk g = true →
      (solveSudoku fuel g).1 = true →
      isCompletion g (solveSudoku fuel g).2 = true := by
  intro fuel
  induction fuel with
  | zero =>
    intro g hwf hcons hd hok
    cases hfe : findFirstEmpty g with
    | none =>
      rw [solveSudoku_eq_none 0 hfe]
      exact isCompletion_self hwf hcons hd (findFirstEmpty_none hfe)
    | some p =>
      rcases p with ⟨r, c⟩
      rw [solveSudoku_eq_zero_some hfe] at hok
      simp at hok
  | succ f ih =>
    intro g hwf hcons hd hok
    cases hfe : findFirstEmpty g with
    | none =>
      rw [solveSudoku_eq_none (f + 1) hfe]
      exact isCompletion_self hwf hcons hd (findFirstEmpty_none hfe)
    | some p =>
      rcases p with ⟨r, c⟩
      rw [solveSudoku_eq_succ_some hfe] at hok ⊢
      obtain ⟨hr, hc, h0⟩ := findFirstEmpty_some hfe
      exact solveDigits_success (fun g' => solveSudoku_restore f g')
        (fun g' => ih g') hr hc digits19 g (fun m hm => hm) h0 hwf hcons hd
        hok

/-! ### Claim C5 -/

/-- Grid `solvedGridA` with cell (0,0) emptied: a one-clue-removed puzzle. -/
def puzzleA : Grid :=
  [[0, 2, 3, 4, 5, 6, 7, 8, 9],
   [4, 5, 6, 7, 8, 9, 1, 2, 3],
   [7, 8, 9, 1, 2, 3, 4, 5, 6],
   [2, 3, 1, 5, 6, 4, 8, 9, 7],
   [5, 6, 4, 8, 9, 7, 2, 3, 1],
   [8, 9, 7, 2, 3, 1, 5, 6, 4],
   [3, 1, 2, 6, 4, 5, 9, 7, 8],
   [6, 4, 5, 9, 7, 8, 3, 1, 2],
   [9, 7, 8, 3, 1, 2, 6, 4, 5]]

/-- A full grid every cell of which holds 1: the filled cells violate
the Sudoku constraints, yet the solver's scan finds no empty cell and
reports success. -/
def allOnesGrid : Grid :=
  [[1, 1, 1, 1, 1, 1, 1, 1, 1],
   [1, 1, 1, 1, 1, 1, 1, 1, 1],
   [1, 1, 1, 1, 1, 1, 1, 1, 1],
   [1, 1, 1, 1, 1, 1, 1, 1, 1],
   [1, 1, 1, 1, 1, 1, 1, 1, 1],
   [1, 1, 1, 1, 1, 1, 1, 1, 1],
   [1, 1, 1, 1, 1, 1, 1, 1, 1],
   [1, 1, 1, 1, 1, 1, 1, 1, 1],
   [1, 1, 1, 1, 1, 1, 1, 1, 1]]

/-- C5 (amended): for every 9×9 input grid whose filled cells hold
digits at most 9 and are mutually consistent, the backtracking Solver
(`solveSudoku` of `script.js` and of the second web variant) either
returns success with the grid a full valid completion of the input, or
returns failure with the grid equal to its state at the call. -/
theorem solver_success_valid_or_restore (g : Grid) (hwf : wfGrid g = true)
    (hcons : consistent g = true) (hd : digitsOk g = true) :
    ((solveSudoku 81 g).1 = true →
      isCompletion g (solveSudoku 81 g).2 = true) ∧
    ((solveSudoku 81 g).1 = false → (solveSudoku 81 g).2 = g) :=
  ⟨solveSudoku_success 81 g hwf hcons hd, solveSudoku_restore 81 g⟩

/-- Witness for C5: the hypotheses are satisfiable, at a puzzle on which
the solver in fact succeeds. -/
theorem solver_success_valid_or_restore_witness :
    (((solveSudoku 81 puzzleA).1 = true →
      isCompletion puzzleA (solveSudoku 81 puzzleA).2 = true) ∧
    ((solveSudoku 81 puzzleA).1 = false →
      (solveSudoku 81 puzzleA).2 = puzzleA)) ∧
    (solveSudoku 81 puzzleA).1 = true :=
  ⟨solver_success_valid_or_restore puzzleA (by decide) (by decide)
    (by decide), by decide⟩

/-- Counterexample to C5 as stated: on the all-ones input grid the
solver returns success with the (unchanged) full grid, but that full
assignment violates the row/column/box constraints, so success does not
guarantee a constraint-satisfying assignment for every input grid. -/
theorem solver_success_counterexample :
    (solveSudoku 81 allOnesGrid).1 = true ∧
    fullGrid (solveSudoku 81 allOnesGrid).2 = true ∧
    consistent (solveSudoku 81 allOnesGrid).2 = false := by
  decide

/-! ### Claim C2 -/

/-- Embeds `_checkSolved` of the Dart VM: cell-by-cell equality of the board
with the stored solution grid. -/
def checkSolvedD (board sol : Grid) : Bool :=
  (List.range 9).all fun r => (List.range 9).all fun c =>
    getCell board r c == getCell sol r c

/-- Embeds `deepCopy` of `script.js` (`arr.map(r => r.slice())`). -/
def deepCopy (g : Grid) : Grid := g.map fun row => row.map fun v => v

theorem deepCopy_eq (g : Grid) : deepCopy g = g := by
  unfold deepCopy
  have : ∀ row : List Nat, row.map (fun v => v) = row := fun row =>
    List.map_id' row
  simp only [this]
  exact List.map_id g

/-- Embeds `maybeSolved` of `script.js` with its UI side effects dropped:
false while any cell is empty, otherwise the verdict of the Solver run
on a deep copy of the board. -/
def maybeSolvedJS (g : Grid) : Bool :=
  fullGrid g && (solveSudoku 81 (deepCopy g)).1

/-- C2 (amended): the Dart VM's solved decision is equality-based — for
every board and stored solution, `_checkSolved` is true iff the board
agrees with the solution cell by cell — whereas the `script.js`
completion check is solver-derived: `maybeSolved` is true iff the board
is full and the Solver succeeds on a copy of it. -/
theorem checkSolved_semantics :
    (∀ board sol : Grid, checkSolvedD board sol = true ↔
      ∀ r c, r < 9 → c < 9 → getCell board r c = getCell sol r c) ∧
    (∀ g : Grid, maybeSolvedJS g = (fullGrid g && (solveSudoku 81 g).1)) := by
  constructor
  · intro board sol
    simp only [checkSolvedD, List.all_eq_true, List.mem_range, beq_iff_eq]
    constructor
    · intro h r c hr hc
      exact h r hr c hc
    · intro h r hr c hc
      exact h r c hr hc
  · intro g
    unfold maybeSolvedJS
    rw [deepCopy_eq]

/-- Witness for C2: the semantics applied at concrete grids. -/
theorem checkSolved_semantics_witness :
    (checkSolvedD solvedGridA solvedGridA = true ↔
      ∀ r c, r < 9 → c < 9 →
        getCell solvedGridA r c = getCell solvedGridA r c) ∧
    maybeSolvedJS solvedGridB =
      (fullGrid solvedGridB && (solveSudoku 81 solvedGridB).1) :=
  ⟨checkSolved_semantics.1 solvedGridA solvedGridA,
    checkSolved_semantics.2 solvedGridB⟩

/-- Counterexample to C2 as stated: a Play State whose board is the
full valid grid `solvedGridB` while the stored solution grid is the
different grid `solvedGridA` — the board has no empty cell and the
Solver run on a copy succeeds, yet the Dart VM reports the game not
solved, so the solved decision is the equality test, not
constraint-derived. -/
theorem checkSolved_counterexample :
    fullGrid solvedGridB = true ∧
    (solveSudoku 81 (deepCopy solvedGridB)).1 = true ∧
    checkSolvedD solvedGridB solvedGridA = false := by
  decide

/-! ### Claim C10 -/

/-- C10: both Solution Counters leave their input grid unchanged on
return — every speculative placement made during the counting search is
undone before returning, at every count, limit and fuel, including the
early-stop path. -/
theorem counters_preserve_grid (g : Grid) (fuel count limit : Nat) :
    (solveNextD limit fuel g count).2.1 = g ∧
    (backtrackJS limit fuel g count).1 = g :=
  ⟨solveNextD_frame limit fuel g count, backtrackJS_frame limit fuel g count⟩

/-! ### The Dart view-model (`SudokuViewModel`)

Play state, undo stack, and the mutation commands `setNumber`,
`toggleCandidate`, `clearCell`, `selectCell`, `toggleNoteMode`, `undo`.
Dart `Set<int>` is a `LinkedHashSet` (insertion-ordered); candidate sets
are embedded as duplicate-free lists with `add` appending and `remove`
erasing, in the code's own order of operations.  `notifyListeners` and
`_saveToPrefs` calls are I/O and do not change the modelled state. -/

structure UndoState where
  board : Grid
  candidates : List (List (List Nat))
  mistakes : Nat
  selectedRow : Option Nat
  selectedCol : Option Nat
deriving DecidableEq

structure VMState where
  board : Grid
  fixed : List (List Bool)
  candidates : List (List (List Nat))
  solution : Grid
  selectedRow : Option Nat
  selectedCol : Option Nat
  isNoteMode : Bool
  isSolved : Bool
  elapsedSeconds : Nat
  mistakes : Nat
  undoStack : List UndoState
deriving DecidableEq

def getFixed (st : VMState) (r c : Nat) : Bool :=
  (st.fixed.getD r []).getD c false

def getCands (cands : List (List (List Nat))) (r c : Nat) : List Nat :=
  (cands.getD r []).getD c []

def setCands (cands : List (List (List Nat))) (r c : Nat) (v : List Nat) :
    List (List (List Nat)) :=
  cands.set r ((cands.getD r []).set c v)

/-- Embeds `_inBounds` (the Dart `int` may be negative; over `Nat` the lower
bounds hold trivially). -/
def inBounds (r c : Nat) : Bool := decide (r < 9) && decide (c < 9)

/-- Embeds `_pushUndo`: snapshot board/candidates/mistakes/selection, append,
evict the oldest entry once the stack exceeds 100. -/
def pushUndo (st : VMState) : VMState :=
  let s : UndoState :=
    ⟨st.board, st.candidates, st.mistakes, st.selectedRow, st.selectedCol⟩
  let stack := st.undoStack ++ [s]
  { st with undoStack := if 100 < stack.length then stack.drop 1 else stack }

/-- Embeds `toggleCandidate`: note the absence of any check that the cell is
empty — only bounds, digit range, and the given-mask are checked. -/
def toggleCandidate (st : VMState) (r c v : Nat) : VMState :=
  if ¬(inBounds r c = true) ∨ v < 1 ∨ 9 < v then st
  else if getFixed st r c = true then st
  else
    let st1 := pushUndo st
    let set0 := getCands st1.candidates r c
    let newSet := if set0.contains v then set0.erase v else set0 ++ [v]
    { st1 with candidates := setCands st1.candidates r c newSet }

/-- Embeds `clearCell`. -/
def clearCell (st : VMState) (r c : Nat) : VMState :=
  if ¬(inBounds r c = true) then st
  else if getFixed st r c = true then st
  else
    let st1 := pushUndo st
    let board' := setCell st1.board r c 0
    { st1 with
      board := board'
      candidates := setCands st1.candidates r c []
      isSolved := checkSolvedD board' st1.solution }

/-- Embeds `setNumber`: in note mode delegate to `toggleCandidate`; otherwise
place the value, clear the cell's candidates, and increment `mistakes`
iff the value differs from the stored solution. -/
def setNumber (st : VMState) (r c v : Nat) : VMState :=
  if ¬(inBounds r c = true) ∨ v < 1 ∨ 9 < v then st
  else if getFixed st r c = true then st
  else if st.isNoteMode then toggleCandidate st r c v
  else
    let st1 := pushUndo st
    let board' := setCell st1.board r c v
    { st1 with
      board := board'
      candidates := setCands st1.candidates r c []
      mistakes :=
        if getCell st1.solution r c ≠ v then st1.mistakes + 1
        else st1.mistakes
      isSolved := checkSolvedD board' st1.solution }

/-- Embeds `selectCell`. -/
def selectCell (st : VMState) (r c : Nat) : VMState :=
  if st.selectedRow = some r ∧ st.selectedCol = some c then
    { st with selectedRow := none, selectedCol := none }
  else { st with selectedRow := some r, selectedCol := some c }

/-- Embeds `toggleNoteMode`. -/
def toggleNoteMode (st : VMState) : VMState :=
  { st with isNoteMode := !st.isNoteMode }

/-- Embeds `undo`: pop the most recent snapshot, restore board, candidates,
mistakes and selection from it, and recompute `isSolved`. -/
def undo (st : VMState) : VMState :=
  match st.undoStack.getLast? with
  | none => st
  | some s =>
    { st with
      board := s.board
      candidates := s.candidates
      mistakes := s.mistakes
      selectedRow := s.selectedRow
      selectedCol := s.selectedCol
      undoStack := st.undoStack.dropLast
      isSolved := checkSolvedD s.board st.solution }

/-- Embeds `canUndo`. -/
def canUndo (st : VMState) : Bool := !st.undoStack.isEmpty

/-- The play state `restart`/`_generatePuzzle` leaves for a given
puzzle/solution pair: board = puzzle, given-mask = the nonzero cells,
no candidates, zeroed counters, empty undo stack. -/
def initialVM (puzzle solution : Grid) : VMState :=
  { board := puzzle
    fixed := (List.range 9).map fun r => (List.range 9).map fun c =>
      decide (getCell puzzle r c ≠ 0)
    candidates := List.replicate 9 (List.replicate 9 [])
    solution := solution
    selectedRow := none
    selectedCol := none
    isNoteMode := false
    isSolved := checkSolvedD puzzle solution
    elapsedSeconds := 0
    mistakes := 0
    undoStack := [] }

/-! ### Claim C6 -/

/-- The candidate matrix is 9×9. -/
def wfCands (cands : List (List (List Nat))) : Bool :=
  (cands.length == 9) &&
    (List.range 9).all fun r => (cands.getD r []).length == 9

theorem getCands_setCands_self {cands : List (List (List Nat))}
    (hwfc : wfCands cands = true) {r c : Nat} (hr : r < 9) (hc : c < 9)
    (v : List Nat) : getCands (setCands cands r c v) r c = v := by
  simp only [wfCands, Bool.and_eq_true, beq_iff_eq, List.all_eq_true,
    List.mem_range] at hwfc
  unfold getCands setCands
  rw [getD_set_self (by omega) _ ([] : List (List Nat))]
  exact getD_set_self (by rw [hwfc.2 r hr]; exact hc) v []

/-- C6 (amended): in the Dart VM, for every in-range non-given cell and
digit 1..9 with note mode off, `setNumber` writes the value, clears the
cell's candidates, and increments `mistakes` by exactly one iff the
value differs from the stored solution.  (The `script.js` variant uses
a different policy: it adds the number of newly conflicting cells — see
the counterexample.) -/
theorem setNumber_spec (st : VMState) (r c n : Nat) (hr : r < 9)
    (hc : c < 9) (hn1 : 1 ≤ n) (hn9 : n ≤ 9)
    (hfix : getFixed st r c = false) (hnote : st.isNoteMode = false)
    (hwb : wfGrid st.board = true) (hwc : wfCands st.candidates = true) :
    getCell (setNumber st r c n).board r c = n ∧
    getCands (setNumber st r c n).candidates r c = [] ∧
    (setNumber st r c n).mistakes =
      (if n = getCell st.solution r c then st.mistakes
       else st.mistakes + 1) := by
  have hguard : ¬(¬(inBounds r c = true) ∨ n < 1 ∨ 9 < n) := by
    simp only [inBounds, Bool.and_eq_true, decide_eq_true_eq]
    push_neg
    exact ⟨⟨hr, hc⟩, by omega, by omega⟩
  have hfix' : ¬(getFixed st r c = true) := by rw [hfix]; simp
  have hnote' : ¬(st.isNoteMode = true) := by rw [hnote]; simp
  unfold setNumber
  rw [if_neg hguard, if_neg hfix', if_neg hnote']
  refine ⟨?_, ?_, ?_⟩
  · exact getCell_setCell_self hwb hr hc n
  · exact getCands_setCands_self hwc hr hc []
  · show (if getCell (pushUndo st).solution r c ≠ n then
        (pushUndo st).mistakes + 1 else (pushUndo st).mistakes) = _
    by_cases heq : n = getCell st.solution r c
    · rw [if_neg (by exact fun hne => hne heq.symm), if_pos heq]
      rfl
    · rw [if_pos (fun hh => heq hh.symm), if_neg heq]
      rfl

/-- Witness for C6: a wrong digit placed on the empty cell of a
freshly initialized play state increments the mistake count to 1. -/
theorem setNumber_spec_witness :
    (getCell (setNumber (initialVM puzzleA solvedGridA) 0 0 5).board 0 0 =
        5 ∧
      getCands (setNumber (initialVM puzzleA solvedGridA) 0 0 5).candidates
        0 0 = [] ∧
      (setNumber (initialVM puzzleA solvedGridA) 0 0 5).mistakes =
        (if 5 = getCell (initialVM puzzleA solvedGridA).solution 0 0 then
          (initialVM puzzleA solvedGridA).mistakes
         else (initialVM puzzleA solvedGridA).mistakes + 1)) ∧
    (setNumber (initialVM puzzleA solvedGridA) 0 0 5).mistakes = 1 :=
  ⟨setNumber_spec (initialVM puzzleA solvedGridA) 0 0 5 (by omega) (by omega)
    (by omega) (by omega) (by decide) (by decide) (by decide) (by decide),
   by decide⟩

/-! ### The `script.js` play state

Cells carry a value, the given flag and a note set; `invalidSet` is the
incrementally maintained set of conflicted cells, and the mistake
counter is driven by newly conflicting cells, not by comparison with
the stored solution. -/

structure JSCell where
  value : Option Nat
  given : Bool
  notes : List Nat
deriving DecidableEq

abbrev JSGridM := List (List JSCell)

structure JSState where
  grid : JSGridM
  invalid : List (Nat × Nat)
  mistakes : Nat
deriving DecidableEq

def emptyJSCell : JSCell := ⟨none, false, []⟩

def getJSCell (g : JSGridM) (r c : Nat) : JSCell :=
  (g.getD r []).getD c emptyJSCell

def setJSCell (g : JSGridM) (r c : Nat) (cell : JSCell) : JSGridM :=
  g.set r ((g.getD r []).set c cell)

/-- Embeds `gridToNumbers`. -/
def gridToNumbers (g : JSGridM) : Grid :=
  g.map fun row => row.map fun cell =>
    match cell.value with
    | none => 0
    | some v => v

/-- Embeds `numbersToModel`: nonzero cells become givens, all note sets empty. -/
def numbersToModel (nums : Grid) : JSGridM :=
  nums.map fun row => row.map fun v =>
    if v = 0 then ⟨none, false, []⟩ else ⟨some v, true, []⟩

/-- Embeds `findConflictsForCell`: row conflicts, then column conflicts, then
box conflicts not already collected. -/
def findConflicts (g : JSGridM) (r c : Nat) : List (Nat × Nat) :=
  match (getJSCell g r c).value with
  | none => []
  | some v =>
    let rowC := ((List.range 9).filter fun i =>
      i ≠ c ∧ (getJSCell g r i).value = some v).map fun i => (r, i)
    let colC := ((List.range 9).filter fun i =>
      i ≠ r ∧ (getJSCell g i c).value = some v).map fun i => (i, c)
    let boxCells := (List.range 3).flatMap fun dr =>
      (List.range 3).map fun dc => (r / 3 * 3 + dr, c / 3 * 3 + dc)
    boxCells.foldl (fun acc p =>
      if p ≠ (r, c) ∧ (getJSCell g p.1 p.2).value = some v ∧
          ¬acc.contains p then acc ++ [p]
      else acc) (rowC ++ colC)

/-- Embeds `autoCheckAndSyncInvalids`: recompute the conflicted cells from the
live board (zeroing the cell under test) and synchronize `invalidSet`
with the result; the mistake counter is not changed here. -/
def autoCheck (st : JSState) : JSState :=
  let nums := gridToNumbers st.grid
  let current := (List.range 9).flatMap fun r =>
    ((List.range 9).filter fun c =>
      getCell nums r c ≠ 0 ∧
        canPlace (setCell nums r c 0) r c (getCell nums r c) = false).map
      fun c => (r, c)
  let kept := st.invalid.filter fun k => current.contains k
  let added := current.filter fun k => ¬st.invalid.contains k
  { st with invalid := kept ++ added }

/-- Embeds `eraseAt`. -/
def eraseAtJS (st : JSState) (r c : Nat) : JSState :=
  if ¬(r < 9 ∧ c < 9) then st
  else
    let cell := getJSCell st.grid r c
    if cell.given then st
    else
      let st1 :=
        if st.invalid.contains (r, c) then
          { st with
            invalid := st.invalid.erase (r, c)
            mistakes := st.mistakes - 1 }
        else st
      autoCheck { st1 with
        grid := setJSCell st1.grid r c ⟨none, cell.given, []⟩ }

/-- Embeds `setValueAt` (value case; `val = none` delegates to `eraseAt`):
write the value, clear the notes, then either record the newly
conflicting cells (raising `mistakes` by their number) or run the full
re-check.  The trailing `maybeSolved` call changes none of the fields
modelled here. -/
def setValueAtJS (st : JSState) (r c : Nat) (val : Option Nat) : JSState :=
  if ¬(r < 9 ∧ c < 9) then st
  else
    let cell := getJSCell st.grid r c
    if cell.given then st
    else
      match val with
      | none => eraseAtJS st r c
      | some v =>
        let grid1 := setJSCell st.grid r c ⟨some v, cell.given, []⟩
        let conflicts := findConflicts grid1 r c
        if conflicts ≠ [] then
          let step := fun (acc : List (Nat × Nat) × List (Nat × Nat)) p =>
            if acc.2.contains p then acc else (acc.1 ++ [p], acc.2 ++ [p])
          let res := ((r, c) :: conflicts).foldl step ([], st.invalid)
          { grid := grid1
            invalid := res.2
            mistakes := st.mistakes + res.1.length }
        else autoCheck { st with grid := grid1 }

/-- Embeds `toggleNoteAt`: a no-op when the cell is given or holds a value. -/
def toggleNoteAtJS (st : JSState) (r c n : Nat) : JSState :=
  if ¬(r < 9 ∧ c < 9) then st
  else
    let cell := getJSCell st.grid r c
    if cell.given = true ∨ cell.value ≠ none then st
    else
      let newNotes :=
        if cell.notes.contains n then cell.notes.erase n
        else cell.notes ++ [n]
      { st with grid := setJSCell st.grid r c ⟨cell.value, cell.given, newNotes⟩ }

/-- A board with rows 3–8 of `solvedGridA` as givens and rows 0–2
empty: the digit 4 at (0,0) conflicts with nothing although it differs
from the solution value 1. -/
def puzzleBottomSix : Grid :=
  [[0, 0, 0, 0, 0, 0, 0, 0, 0],
   [0, 0, 0, 0, 0, 0, 0, 0, 0],
   [0, 0, 0, 0, 0, 0, 0, 0, 0],
   [2, 3, 1, 5, 6, 4, 8, 9, 7],
   [5, 6, 4, 8, 9, 7, 2, 3, 1],
   [8, 9, 7, 2, 3, 1, 5, 6, 4],
   [3, 1, 2, 6, 4, 5, 9, 7, 8],
   [6, 4, 5, 9, 7, 8, 3, 1, 2],
   [9, 7, 8, 3, 1, 2, 6, 4, 5]]

def jsStateC6 : JSState :=
  { grid := numbersToModel puzzleBottomSix, invalid := [], mistakes := 0 }

/-- Counterexample to C6 as stated: in `script.js`, placing the wrong
digit 4 at the non-given empty cell (0,0) (the solution holds 1 there)
leaves the mistake counter unchanged, because the placement conflicts
with no other cell — the mistake policy is conflict-counting, not
solution comparison. -/
theorem setNumber_mistakes_counterexample :
    (4 ≠ getCell solvedGridA 0 0) ∧
    (getJSCell jsStateC6.grid 0 0).given = false ∧
    (getJSCell jsStateC6.grid 0 0).value = none ∧
    (setValueAtJS jsStateC6 0 0 (some 4)).grid =
      setJSCell jsStateC6.grid 0 0 ⟨some 4, false, []⟩ ∧
    (setValueAtJS jsStateC6 0 0 (some 4)).mistakes = jsStateC6.mistakes := by
  decide

/-! ### Claim C8 -/

def wfJSGrid (g : JSGridM) : Bool :=
  (g.length == 9) && (List.range 9).all fun r => (g.getD r []).length == 9

/-- The note invariant: a cell holding a value carries no notes, and a
given cell carries no notes. -/
def jsNotesInvariant (g : JSGridM) : Bool :=
  (List.range 9).all fun r => (List.range 9).all fun c =>
    (decide ((getJSCell g r c).value = none) ||
      (getJSCell g r c).notes.isEmpty) &&
    (!(getJSCell g r c).given || (getJSCell g r c).notes.isEmpty)

def jsInv (g : JSGridM) : Bool := wfJSGrid g && jsNotesInvariant g

inductive JSCmd where
  | setVal (r c : Nat) (v : Option Nat)
  | toggleNote (r c n : Nat)
  | erase (r c : Nat)

def applyJS (st : JSState) : JSCmd → JSState
  | .setVal r c v => setValueAtJS st r c v
  | .toggleNote r c n => toggleNoteAtJS st r c n
  | .erase r c => eraseAtJS st r c

theorem rows_set_getD {α : Type} {g : List α} {r : Nat} (row : α)
    (hr : r < g.length) (d : α) : (g.set r row).getD r d = row := by
  simp [List.getD, List.getElem?_set_self', List.getElem?_eq_getElem hr]

theorem rows_set_getD_ne {α : Type} {g : List α} {r r' : Nat} (row : α)
    (h : r ≠ r') (d : α) : (g.set r row).getD r' d = g.getD r' d := by
  simp [List.getD, List.getElem?_set_ne h]

theorem getD_map_of_lt {α β : Type} (f : α → β) (l : List α) {i : Nat}
    (h : i < l.length) (d : β) (d0 : α) :
    (l.map f).getD i d = f (l.getD i d0) := by
  rw [List.getD_eq_getElem (l.map f) d (by simpa using h),
    List.getD_eq_getElem l d0 h]
  simp

theorem jsRow_length {g : JSGridM} (hwf : wfJSGrid g = true) {r : Nat}
    (hr : r < 9) : r < g.length ∧ (g.getD r []).length = 9 := by
  simp only [wfJSGrid, Bool.and_eq_true, beq_iff_eq, List.all_eq_true,
    List.mem_range] at hwf
  exact ⟨by omega, hwf.2 r hr⟩

theorem getJSCell_set_self {g : JSGridM} (hwf : wfJSGrid g = true)
    {r c : Nat} (hr : r < 9) (hc : c < 9) (cell : JSCell) :
    getJSCell (setJSCell g r c cell) r c = cell := by
  obtain ⟨h1, h2⟩ := jsRow_length hwf hr
  unfold getJSCell setJSCell
  rw [rows_set_getD _ h1 []]
  exact getD_set_self (by omega) cell emptyJSCell

theorem getJSCell_set_ne {g : JSGridM} {r c r' c' : Nat}
    (h : r ≠ r' ∨ c ≠ c') (cell : JSCell) :
    getJSCell (setJSCell g r c cell) r' c' = getJSCell g r' c' := by
  unfold getJSCell setJSCell
  rcases Nat.decEq r r' with hrr | hrr
  · rw [rows_set_getD_ne _ hrr]
  · subst hrr
    rcases h with h | h
    · exact absurd rfl h
    · by_cases hlen : r < g.length
      · rw [rows_set_getD _ hlen, getD_set_ne h]
      · rw [List.set_eq_of_length_le (by omega)]

theorem wfJSGrid_set {g : JSGridM} (hwf : wfJSGrid g = true)
    (r c : Nat) (cell : JSCell) :
    wfJSGrid (setJSCell g r c cell) = true := by
  simp only [wfJSGrid, Bool.and_eq_true, beq_iff_eq, List.all_eq_true,
    List.mem_range] at hwf ⊢
  refine ⟨by simp [setJSCell, hwf.1], fun r' hr' => ?_⟩
  rcases Nat.decEq r r' with hrr | hrr
  · rw [setJSCell, rows_set_getD_ne _ hrr]
    exact hwf.2 r' hr'
  · subst hrr
    by_cases hlen : r < g.length
    · rw [setJSCell, rows_set_getD _ hlen, List.length_set]
      exact hwf.2 r hr'
    · rw [setJSCell, List.set_eq_of_length_le (by omega)]
      exact hwf.2 r hr'

theorem jsNotesInvariant_spec {g : JSGridM} :
    jsNotesInvariant g = true ↔
      ∀ r c, r < 9 → c < 9 →
        ((getJSCell g r c).value = none ∨ (getJSCell g r c).notes = []) ∧
        ((getJSCell g r c).given = false ∨ (getJSCell g r c).notes = []) := by
  simp only [jsNotesInvariant, List.all_eq_true, List.mem_range,
    Bool.and_eq_true, Bool.or_eq_true, decide_eq_true_eq,
    List.isEmpty_iff, Bool.not_eq_true']
  constructor
  · intro h r c hr hc
    exact h r hr c hc
  · intro h r hr c hc
    exact h r c hr hc

theorem jsNotesInvariant_set {g : JSGridM} (hwf : wfJSGrid g = true)
    (hinv : jsNotesInvariant g = true) {r c : Nat} (hr : r < 9) (hc : c < 9)
    {cell : JSCell}
    (hcell : cell.notes = [] ∨ (cell.value = none ∧ cell.given = false)) :
    jsNotesInvariant (setJSCell g r c cell) = true := by
  rw [jsNotesInvariant_spec] at hinv ⊢
  intro a b ha hb
  by_cases hab : r = a ∧ c = b
  · obtain ⟨e1, e2⟩ := hab
    subst e1; subst e2
    rw [getJSCell_set_self hwf hr hc]
    rcases hcell with h | ⟨h1, h2⟩
    · exact ⟨Or.inr h, Or.inr h⟩
    · exact ⟨Or.inl h1, Or.inl h2⟩
  · have hne : r ≠ a ∨ c ≠ b := by tauto
    rw [getJSCell_set_ne hne]
    exact hinv a b ha hb

theorem autoCheck_grid (st : JSState) : (autoCheck st).grid = st.grid := rfl

/-- C8 (amended): in `script.js`, `toggleNoteAt` is a no-op whenever
the cell is given or already holds a value; the fresh board built by
`numbersToModel` satisfies the note invariant (no notes on valued or
given cells), and every play mutation (`setValueAt`, `toggleNoteAt`,
`eraseAt`) preserves shape and invariant.  (The Dart `toggleCandidate`
omits the holds-a-value check — see the counterexample.) -/
theorem toggleNote_noop_and_invariant :
    (∀ (st : JSState) (r c n : Nat),
      ((getJSCell st.grid r c).given = true ∨
        (getJSCell st.grid r c).value ≠ none) →
      toggleNoteAtJS st r c n = st) ∧
    (∀ nums : Grid, wfGrid nums = true →
      jsInv (numbersToModel nums) = true) ∧
    (∀ (st : JSState) (cmd : JSCmd), jsInv st.grid = true →
      jsInv (applyJS st cmd).grid = true) := by
  refine ⟨?_, ?_, ?_⟩
  · intro st r c n hguard
    unfold toggleNoteAtJS
    by_cases hrange : r < 9 ∧ c < 9
    · rw [if_neg (by tauto), if_pos hguard]
    · rw [if_pos hrange]
  · intro nums hwf
    simp only [wfGrid, Bool.and_eq_true, beq_iff_eq, List.all_eq_true,
      List.mem_range] at hwf
    have hrow : ∀ r, r < 9 → (numbersToModel nums).getD r [] =
        (nums.getD r []).map fun v =>
          if v = 0 then (⟨none, false, []⟩ : JSCell)
          else ⟨some v, true, []⟩ := by
      intro r hr
      unfold numbersToModel
      have h1 : r < nums.length := by omega
      simp [List.getD, List.getElem?_map, List.getElem?_eq_getElem h1]
    have hcell : ∀ r c, r < 9 → c < 9 →
        getJSCell (numbersToModel nums) r c =
          (if (nums.getD r []).getD c 0 = 0 then (⟨none, false, []⟩ : JSCell)
           else ⟨some ((nums.getD r []).getD c 0), true, []⟩) := by
      intro r c hr hc
      unfold getJSCell
      rw [hrow r hr]
      have h2 : c < (nums.getD r []).length := by rw [hwf.2 r hr]; exact hc
      rw [getD_map_of_lt _ _ h2 emptyJSCell 0]
    simp only [jsInv, Bool.and_eq_true]
    constructor
    · simp only [wfJSGrid, Bool.and_eq_true, beq_iff_eq, List.all_eq_true,
        List.mem_range]
      constructor
      · unfold numbersToModel
        simp [hwf.1]
      · intro r hr
        rw [hrow r hr, List.length_map]
        exact hwf.2 r hr
    · rw [jsNotesInvariant_spec]
      intro r c hr hc
      rw [hcell r c hr hc]
      by_cases h0 : (nums.getD r []).getD c 0 = 0
      · rw [if_pos h0]
        exact ⟨Or.inr rfl, Or.inr rfl⟩
      · rw [if_neg h0]
        exact ⟨Or.inr rfl, Or.inr rfl⟩
  · intro st cmd hinv
    simp only [jsInv, Bool.and_eq_true] at hinv
    obtain ⟨hwf, hnotes⟩ := hinv
    cases cmd with
    | setVal r c v =>
      show jsInv (setValueAtJS st r c v).grid = true
      unfold setValueAtJS
      by_cases hrange : r < 9 ∧ c < 9
      · rw [if_neg (by tauto)]
        by_cases hgiven : (getJSCell st.grid r c).given = true
        · rw [if_pos hgiven]
          simp [jsInv, hwf, hnotes]
        · rw [if_neg hgiven]
          cases v with
          | none =>
            show jsInv (eraseAtJS st r c).grid = true
            unfold eraseAtJS
            rw [if_neg (by tauto), if_neg hgiven]
            rw [autoCheck_grid]
            simp only
            have hwf' : wfJSGrid (if st.invalid.contains (r, c) then
                { st with
                  invalid := st.invalid.erase (r, c)
                  mistakes := st.mistakes - 1 }
                else st).grid = true := by
              by_cases hmem : st.invalid.contains (r, c)
              · rw [if_pos hmem]; exact hwf
              · rw [if_neg hmem]; exact hwf
            have hnotes' : jsNotesInvariant (if st.invalid.contains (r, c)
                then { st with
                  invalid := st.invalid.erase (r, c)
                  mistakes := st.mistakes - 1 }
                else st).grid = true := by
              by_cases hmem : st.invalid.contains (r, c)
              · rw [if_pos hmem]; exact hnotes
              · rw [if_neg hmem]; exact hnotes
            simp only [jsInv, Bool.and_eq_true]
            exact ⟨wfJSGrid_set hwf' r c _,
              jsNotesInvariant_set hwf' hnotes' hrange.1 hrange.2
                (Or.inl rfl)⟩
          | some w =>
            simp only
            by_cases hconf : findConflicts (setJSCell st.grid r c
                ⟨some w, (getJSCell st.grid r c).given, []⟩) r c ≠ []
            · rw [if_pos hconf]
              simp only [jsInv, Bool.and_eq_true]
              exact ⟨wfJSGrid_set hwf r c _,
                jsNotesInvariant_set hwf hnotes hrange.1 hrange.2
                  (Or.inl rfl)⟩
            · rw [if_neg hconf, autoCheck_grid]
              simp only [jsInv, Bool.and_eq_true]
              exact ⟨wfJSGrid_set hwf r c _,
                jsNotesInvariant_set hwf hnotes hrange.1 hrange.2
                  (Or.inl rfl)⟩
      · rw [if_pos hrange]
        simp [jsInv, hwf, hnotes]
    | toggleNote r c n =>
      show jsInv (toggleNoteAtJS st r c n).grid = true
      unfold toggleNoteAtJS
      by_cases hrange : r < 9 ∧ c < 9
      · rw [if_neg (by tauto)]
        by_cases hguard : (getJSCell st.grid r c).given = true ∨
            (getJSCell st.grid r c).value ≠ none
        · rw [if_pos hguard]
          simp [jsInv, hwf, hnotes]
        · rw [if_neg hguard]
          push_neg at hguard
          simp only [jsInv, Bool.and_eq_true]
          refine ⟨wfJSGrid_set hwf r c _, ?_⟩
          apply jsNotesInvariant_set hwf hnotes hrange.1 hrange.2
          refine Or.inr ⟨hguard.2, ?_⟩
          have := hguard.1
          revert this
          cases (getJSCell st.grid r c).given <;> simp
      · rw [if_pos hrange]
        simp [jsInv, hwf, hnotes]
    | erase r c =>
      show jsInv (eraseAtJS st r c).grid = true
      unfold eraseAtJS
      by_cases hrange : r < 9 ∧ c < 9
      · rw [if_neg (by tauto)]
        by_cases hgiven : (getJSCell st.grid r c).given = true
        · rw [if_pos hgiven]
          simp [jsInv, hwf, hnotes]
        · rw [if_neg hgiven, autoCheck_grid]
          simp only
          have hwf' : wfJSGrid (if st.invalid.contains (r, c) then
              { st with
                invalid := st.invalid.erase (r, c)
                mistakes := st.mistakes - 1 }
              else st).grid = true := by
            by_cases hmem : st.invalid.contains (r, c)
            · rw [if_pos hmem]; exact hwf
            · rw [if_neg hmem]; exact hwf
          have hnotes' : jsNotesInvariant (if st.invalid.contains (r, c)
              then { st with
                invalid := st.invalid.erase (r, c)
                mistakes := st.mistakes - 1 }
              else st).grid = true := by
            by_cases hmem : st.invalid.contains (r, c)
            · rw [if_pos hmem]; exact hnotes
            · rw [if_neg hmem]; exact hnotes
          simp only [jsInv, Bool.and_eq_true]
          exact ⟨wfJSGrid_set hwf' r c _,
            jsNotesInvariant_set hwf' hnotes' hrange.1 hrange.2
              (Or.inl rfl)⟩
      · rw [if_pos hrange]
        simp [jsInv, hwf, hnotes]

/-- Witness for C8: the no-op clause and invariant preservation applied
at a concrete state and command. -/
theorem toggleNote_noop_and_invariant_witness :
    toggleNoteAtJS jsStateC6 3 0 7 = jsStateC6 ∧
    jsInv (applyJS jsStateC6 (JSCmd.toggleNote 0 0 7)).grid = true :=
  ⟨toggleNote_noop_and_invariant.1 jsStateC6 3 0 7 (Or.inr (by decide)),
   toggleNote_noop_and_invariant.2.2 jsStateC6 (JSCmd.toggleNote 0 0 7)
     (by decide)⟩

/-- The state after placing 5 on the empty non-given cell (0,0) of a
fresh play state — reachable by one `setNumber` call. -/
def c8Mid : VMState := setNumber (initialVM puzzleA solvedGridA) 0 0 5

/-- Counterexample to C8 as stated: the Dart `toggleCandidate` is not a
no-op on a cell that already holds a (non-given) value — it attaches
the note 3 to the cell holding 5, violating the invariant that a
valued cell carries no notes. -/
theorem toggleCandidate_on_valued_cell_counterexample :
    getCell c8Mid.board 0 0 = 5 ∧
    getFixed c8Mid 0 0 = false ∧
    getCands (toggleCandidate c8Mid 0 0 3).candidates 0 0 = [3] ∧
    getCell (toggleCandidate c8Mid 0 0 3).board 0 0 = 5 := by
  decide

/-! ### Claim C7 -/

/-- The mutating and selection commands of the Dart VM play surface
(undo itself and restart/load excluded). -/
inductive VMCmd where
  | setNum (r c v : Nat)
  | toggleCand (r c v : Nat)
  | clear (r c : Nat)
  | select (r c : Nat)
  | noteMode

def applyCmd (st : VMState) : VMCmd → VMState
  | .setNum r c v => setNumber st r c v
  | .toggleCand r c v => toggleCandidate st r c v
  | .clear r c => clearCell st r c
  | .select r c => selectCell st r c
  | .noteMode => toggleNoteMode st

/-- The snapshot `_pushUndo` takes. -/
def snapOf (st : VMState) : UndoState :=
  ⟨st.board, st.candidates, st.mistakes, st.selectedRow, st.selectedCol⟩

/-- The fields the claim says undo must restore. -/
def undoProj (st : VMState) : Grid × List (List (List Nat)) × Nat :=
  (st.board, st.candidates, st.mistakes)

def snapProj (s : UndoState) : Grid × List (List (List Nat)) × Nat :=
  (s.board, s.candidates, s.mistakes)

/-- Repeat `undo` once per stacked snapshot ("until canUndo is
false"). -/
def undoAll (st : VMState) : VMState :=
  Nat.iterate undo st.undoStack.length st

theorem toggleCandidate_stack (st : VMState) (r c v : Nat) :
    ((toggleCandidate st r c v).undoStack = st.undoStack ∧
      undoProj (toggleCandidate st r c v) = undoProj st) ∨
    (toggleCandidate st r c v).undoStack =
      (if 100 < (st.undoStack ++ [snapOf st]).length then
        (st.undoStack ++ [snapOf st]).drop 1
       else st.undoStack ++ [snapOf st]) := by
  unfold toggleCandidate
  by_cases h1 : ¬(inBounds r c = true) ∨ v < 1 ∨ 9 < v
  · rw [if_pos h1]; exact Or.inl ⟨rfl, rfl⟩
  · rw [if_neg h1]
    by_cases h2 : getFixed st r c = true
    · rw [if_pos h2]; exact Or.inl ⟨rfl, rfl⟩
    · rw [if_neg h2]; exact Or.inr rfl

theorem clearCell_stack (st : VMState) (r c : Nat) :
    ((clearCell st r c).undoStack = st.undoStack ∧
      undoProj (clearCell st r c) = undoProj st) ∨
    (clearCell st r c).undoStack =
      (if 100 < (st.undoStack ++ [snapOf st]).length then
        (st.undoStack ++ [snapOf st]).drop 1
       else st.undoStack ++ [snapOf st]) := by
  unfold clearCell
  by_cases h1 : ¬(inBounds r c = true)
  · rw [if_pos h1]; exact Or.inl ⟨rfl, rfl⟩
  · rw [if_neg h1]
    by_cases h2 : getFixed st r c = true
    · rw [if_pos h2]; exact Or.inl ⟨rfl, rfl⟩
    · rw [if_neg h2]; exact Or.inr rfl

theorem setNumber_stack (st : VMState) (r c v : Nat) :
    ((setNumber st r c v).undoStack = st.undoStack ∧
      undoProj (setNumber st r c v) = undoProj st) ∨
    (setNumber st r c v).undoStack =
      (if 100 < (st.undoStack ++ [snapOf st]).length then
        (st.undoStack ++ [snapOf st]).drop 1
       else st.undoStack ++ [snapOf st]) := by
  unfold setNumber
  by_cases h1 : ¬(inBounds r c = true) ∨ v < 1 ∨ 9 < v
  · rw [if_pos h1]; exact Or.inl ⟨rfl, rfl⟩
  · rw [if_neg h1]
    by_cases h2 : getFixed st r c = true
    · rw [if_pos h2]; exact Or.inl ⟨rfl, rfl⟩
    · rw [if_neg h2]
      by_cases h3 : st.isNoteMode = true
      · rw [if_pos h3]; exact toggleCandidate_stack st r c v
      · rw [if_neg h3]; exact Or.inr rfl

theorem applyCmd_stack (st : VMState) (cmd : VMCmd) :
    ((applyCmd st cmd).undoStack = st.undoStack ∧
      undoProj (applyCmd st cmd) = undoProj st) ∨
    (applyCmd st cmd).undoStack =
      (if 100 < (st.undoStack ++ [snapOf st]).length then
        (st.undoStack ++ [snapOf st]).drop 1
       else st.undoStack ++ [snapOf st]) := by
  cases cmd with
  | setNum r c v => exact setNumber_stack st r c v
  | toggleCand r c v => exact toggleCandidate_stack st r c v
  | clear r c => exact clearCell_stack st r c
  | select r c =>
    have h1 : applyCmd st (VMCmd.select r c) = selectCell st r c := rfl
    rw [h1]
    unfold selectCell
    by_cases h : st.selectedRow = some r ∧ st.selectedCol = some c
    · rw [if_pos h]; exact Or.inl ⟨rfl, rfl⟩
    · rw [if_neg h]; exact Or.inl ⟨rfl, rfl⟩
  | noteMode => exact Or.inl ⟨rfl, rfl⟩

/-- The state's first (oldest) snapshot projects the initial play
fields — or the stack is empty and the live fields are the initial
ones. -/
def stackInv (p : Grid × List (List (List Nat)) × Nat) (st : VMState) :
    Prop :=
  match st.undoStack.head? with
  | none => undoProj st = p
  | some s => snapProj s = p

theorem foldl_inv_aux (p : Grid × List (List (List Nat)) × Nat) :
    ∀ (cmds : List VMCmd) (st : VMState), stackInv p st →
      st.undoStack.length + cmds.length ≤ 100 →
      stackInv p (cmds.foldl applyCmd st) ∧
      (cmds.foldl applyCmd st).undoStack.length ≤
        st.undoStack.length + cmds.length := by
  intro cmds
  induction cmds with
  | nil => intro st hinv hlen; exact ⟨hinv, by simp⟩
  | cons cmd cs ih =>
    intro st hinv hlen
    rw [List.foldl_cons]
    rcases applyCmd_stack st cmd with ⟨hstk, hproj⟩ | hstk
    · have hinv' : stackInv p (applyCmd st cmd) := by
        unfold stackInv at hinv ⊢
        rw [hstk]
        cases hh : st.undoStack.head? with
        | none =>
          rw [hh] at hinv
          simp only
          rw [hproj]
          exact hinv
        | some s => rw [hh] at hinv; exact hinv
      have := ih (applyCmd st cmd) hinv' (by
        rw [hstk]
        simp only [List.length_cons] at hlen
        omega)
      rw [hstk] at this
      refine ⟨this.1, by
        have := this.2
        simp only [List.length_cons] at hlen ⊢
        omega⟩
    · have hlen1 : ¬(100 < (st.undoStack ++ [snapOf st]).length) := by
        simp only [List.length_append, List.length_cons, List.length_nil]
          at hlen ⊢
        omega
      rw [if_neg hlen1] at hstk
      have hinv' : stackInv p (applyCmd st cmd) := by
        unfold stackInv at hinv ⊢
        rw [hstk]
        cases hh : st.undoStack with
        | nil =>
          rw [hh] at hinv
          simp only [List.nil_append, List.head?_cons]
          show snapProj (snapOf st) = p
          exact hinv
        | cons a t =>
          rw [hh] at hinv
          simp only [List.cons_append, List.head?_cons] at hinv ⊢
          exact hinv
      have := ih (applyCmd st cmd) hinv' (by
        rw [hstk]
        simp only [List.length_append, List.length_cons, List.length_nil]
          at hlen ⊢
        omega)
      refine ⟨this.1, by
        have h2 := this.2
        rw [hstk] at h2
        simp only [List.length_append, List.length_cons, List.length_nil]
          at h2 ⊢
        omega⟩

theorem undo_of_empty {st : VMState} (h : st.undoStack = []) :
    undo st = st := by
  unfold undo
  rw [h]
  rfl

theorem undo_of_concat {st : VMState} {l : List UndoState} {s : UndoState}
    (h : st.undoStack = l ++ [s]) :
    undo st = { st with
      board := s.board
      candidates := s.candidates
      mistakes := s.mistakes
      selectedRow := s.selectedRow
      selectedCol := s.selectedCol
      undoStack := l
      isSolved := checkSolvedD s.board st.solution } := by
  unfold undo
  rw [h, List.getLast?_concat]
  simp only
  rw [List.dropLast_concat]

theorem undo_iter (p : Grid × List (List (List Nat)) × Nat) :
    ∀ (n : Nat) (st : VMState), st.undoStack.length = n → stackInv p st →
      undoProj (Nat.iterate undo n st) = p ∧
      (Nat.iterate undo n st).undoStack = [] := by
  intro n
  induction n with
  | zero =>
    intro st hlen hinv
    have hempty : st.undoStack = [] := List.length_eq_zero.mp hlen
    unfold stackInv at hinv
    rw [hempty] at hinv
    exact ⟨hinv, hempty⟩
  | succ n ih =>
    intro st hlen hinv
    have hne : st.undoStack ≠ [] := by
      intro hh
      rw [hh] at hlen
      simp at hlen
    have hdecomp : st.undoStack =
        st.undoStack.dropLast ++ [st.undoStack.getLast hne] :=
      (List.dropLast_append_getLast hne).symm
    rw [Function.iterate_succ_apply]
    rw [undo_of_concat hdecomp]
    set s := st.undoStack.getLast hne with hs
    set l := st.undoStack.dropLast with hl
    have hlen' : l.length = n := by
      rw [hl, List.length_dropLast, hlen]
      rfl
    have hinv' : stackInv p { st with
        board := s.board
        candidates := s.candidates
        mistakes := s.mistakes
        selectedRow := s.selectedRow
        selectedCol := s.selectedCol
        undoStack := l
        isSolved := checkSolvedD s.board st.solution } := by
      unfold stackInv at hinv ⊢
      cases hll : l with
      | nil =>
        have : st.undoStack = [s] := by rw [hdecomp, hll]; rfl
        rw [this] at hinv
        simp only [List.head?_cons] at hinv
        simp only [hll, List.head?_nil]
        exact hinv
      | cons a t =>
        have : st.undoStack.head? = some a := by
          rw [hdecomp, hll]
          rfl
        rw [this] at hinv
        simp only [List.head?_cons]
        exact hinv
    exact ih _ hlen' hinv'

/-- C7 (amended): starting from a play state with an empty undo stack
and applying at most 100 play commands, repeating `undo` until
`canUndo` is false restores board, candidate sets and mistake count to
their initial values, and a further `undo` is a no-op.  (With more than
100 snapshot-pushing mutations the oldest snapshots are evicted and the
initial state is no longer reachable — see the counterexample.) -/
theorem undo_all_restores (init : VMState) (cmds : List VMCmd)
    (hinit : init.undoStack = []) (hlen : cmds.length ≤ 100) :
    undoProj (undoAll (cmds.foldl applyCmd init)) = undoProj init ∧
    (undoAll (cmds.foldl applyCmd init)).undoStack = [] ∧
    undo (undoAll (cmds.foldl applyCmd init)) =
      undoAll (cmds.foldl applyCmd init) ∧
    canUndo (undoAll (cmds.foldl applyCmd init)) = false := by
  have hinv0 : stackInv (undoProj init) init := by
    unfold stackInv
    rw [hinit]
    rfl
  have hfold := foldl_inv_aux (undoProj init) cmds init hinv0
    (by rw [hinit]; simpa using hlen)
  have hiter := undo_iter (undoProj init) _ (cmds.foldl applyCmd init) rfl
    hfold.1
  have hstack : (undoAll (cmds.foldl applyCmd init)).undoStack = [] :=
    hiter.2
  refine ⟨hiter.1, hstack, undo_of_empty hstack, ?_⟩
  unfold canUndo
  rw [hstack]
  rfl

/-- Witness for C7: a fresh play state, two commands, undo-all restores
the initial projection. -/
theorem undo_all_restores_witness :
    undoProj (undoAll ([VMCmd.toggleCand 0 0 3, VMCmd.setNum 0 0 5].foldl
      applyCmd (initialVM puzzleA solvedGridA))) =
      undoProj (initialVM puzzleA solvedGridA) ∧
    (undoAll ([VMCmd.toggleCand 0 0 3, VMCmd.setNum 0 0 5].foldl applyCmd
      (initialVM puzzleA solvedGridA))).undoStack = [] ∧
    undo (undoAll ([VMCmd.toggleCand 0 0 3, VMCmd.setNum 0 0 5].foldl
      applyCmd (initialVM puzzleA solvedGridA))) =
      undoAll ([VMCmd.toggleCand 0 0 3, VMCmd.setNum 0 0 5].foldl applyCmd
        (initialVM puzzleA solvedGridA)) ∧
    canUndo (undoAll ([VMCmd.toggleCand 0 0 3, VMCmd.setNum 0 0 5].foldl
      applyCmd (initialVM puzzleA solvedGridA))) = false :=
  undo_all_restores (initialVM puzzleA solvedGridA)
    [VMCmd.toggleCand 0 0 3, VMCmd.setNum 0 0 5] rfl (by decide)

set_option maxRecDepth 40000 in
/-- Counterexample to C7 as stated: after 101 note-toggling mutations
the oldest snapshot has been evicted; undo-all empties the stack but
leaves the note 5 on cell (0,0), so the pre-session state (no notes) is
not restored. -/
theorem undo_bounded_eviction_counterexample :
    (undoAll ((List.replicate 101 (VMCmd.toggleCand 0 0 5)).foldl applyCmd
      (initialVM puzzleA solvedGridA))).undoStack = [] ∧
    getCands (undoAll ((List.replicate 101 (VMCmd.toggleCand 0 0 5)).foldl
      applyCmd (initialVM puzzleA solvedGridA))).candidates 0 0 = [5] ∧
    getCands (initialVM puzzleA solvedGridA).candidates 0 0 = [] := by
  decide

/-! ### Claim C3 -/

/-- The JSON map `_saveToPrefs` writes (booleans as 0/1, candidate sets
as lists, exactly the keys of the source). -/
structure SaveBlob where
  board : Grid
  fixed01 : List (List Nat)
  candidates : List (List (List Nat))
  solution : Grid
  selectedRow : Option Nat
  selectedCol : Option Nat
  isNoteMode : Nat
  isSolved : Nat
  elapsedSeconds : Nat
  mistakes : Nat

/-- Embeds `_saveToPrefs`. -/
def saveToPrefs (st : VMState) : SaveBlob :=
  { board := st.board
    fixed01 := st.fixed.map fun row => row.map fun b => if b then 1 else 0
    candidates := st.candidates
    solution := st.solution
    selectedRow := st.selectedRow
    selectedCol := st.selectedCol
    isNoteMode := if st.isNoteMode then 1 else 0
    isSolved := if st.isSolved then 1 else 0
    elapsedSeconds := st.elapsedSeconds
    mistakes := st.mistakes }

/-- The matrix is at least 9×9, so the parser's `raw[r][c]` indexing
cannot throw. -/
def dimOk {α : Type} (m : List (List α)) : Bool :=
  decide (9 ≤ m.length) &&
    (List.range 9).all fun r => decide (9 ≤ (m.getD r []).length)

/-- Embeds `_loadFromPrefs`: regenerate every field with `List.generate(9, ...)`
indexing; a malformed blob (out-of-range indexing would throw in Dart,
caught and reported as "no load") is `none`; the undo stack is
cleared. -/
def loadFromPrefs (blob : SaveBlob) : Option VMState :=
  if dimOk blob.board && dimOk blob.fixed01 && dimOk blob.candidates &&
      dimOk blob.solution then
    some
      { board := (List.range 9).map fun r => (List.range 9).map fun c =>
          (blob.board.getD r []).getD c 0
        fixed := (List.range 9).map fun r => (List.range 9).map fun c =>
          decide ((blob.fixed01.getD r []).getD c 0 ≠ 0)
        candidates := (List.range 9).map fun r =>
          (List.range 9).map fun c =>
            (blob.candidates.getD r []).getD c []
        solution := (List.range 9).map fun r => (List.range 9).map fun c =>
          (blob.solution.getD r []).getD c 0
        selectedRow := blob.selectedRow
        selectedCol := blob.selectedCol
        isNoteMode := decide (blob.isNoteMode ≠ 0)
        isSolved := decide (blob.isSolved ≠ 0)
        elapsedSeconds := blob.elapsedSeconds
        mistakes := blob.mistakes
        undoStack := [] }
  else none

def wfFixed (fixed : List (List Bool)) : Bool :=
  (fixed.length == 9) &&
    (List.range 9).all fun r => (fixed.getD r []).length == 9

theorem regen_row {α : Type} (d : α) (l : List α) (h : l.length = 9) :
    (List.range 9).map (fun i => l.getD i d) = l := by
  apply List.ext_getElem (by simp [h])
  intro i h1 h2
  simp only [List.getElem_map, List.getElem_range]
  exact List.getD_eq_getElem l d h2

theorem regen_mat {α : Type} (d : α) (m : List (List α)) (h9 : m.length = 9)
    (hrow : ∀ r, r < 9 → (m.getD r []).length = 9) :
    (List.range 9).map (fun r => (List.range 9).map fun c =>
      (m.getD r []).getD c d) = m := by
  apply List.ext_getElem (by simp [h9])
  intro r h1 h2
  simp only [List.getElem_map, List.getElem_range]
  rw [regen_row d (m.getD r []) (hrow r (by simpa using h1))]
  exact List.getD_eq_getElem m [] h2

theorem dimOk_of_nine {α : Type} {m : List (List α)} (h9 : m.length = 9)
    (hrow : ∀ r, r < 9 → (m.getD r []).length = 9) : dimOk m = true := by
  simp only [dimOk, Bool.and_eq_true, decide_eq_true_eq, List.all_eq_true,
    List.mem_range]
  exact ⟨by omega, fun r hr => by rw [hrow r hr]⟩

theorem mapped_fixed_row {st : VMState} (hf : wfFixed st.fixed = true)
    {r : Nat} (hr : r < 9) :
    (st.fixed.map fun row => row.map fun b =>
      if b then (1 : Nat) else 0).getD r [] =
      (st.fixed.getD r []).map fun b => if b then 1 else 0 := by
  simp only [wfFixed, Bool.and_eq_true, beq_iff_eq, List.all_eq_true,
    List.mem_range] at hf
  exact getD_map_of_lt _ st.fixed (by omega) [] []

/-- C3 (amended): the Dart persistence codec round-trips the entire
play state — board, given-mask, candidate note sets, solution grid,
selection, note mode, solved flag, mistakes and elapsed time — exactly,
and the undo stack is empty after load.  (The `script.js` codec drops
the mistake counter — see the counterexample.) -/
theorem save_load_roundtrip (st : VMState) (hb : wfGrid st.board = true)
    (hf : wfFixed st.fixed = true) (hc : wfCands st.candidates = true)
    (hs : wfGrid st.solution = true) :
    loadFromPrefs (saveToPrefs st) = some { st with undoStack := [] } := by
  have hbl : st.board.length = 9 ∧ ∀ r, r < 9 →
      (st.board.getD r []).length = 9 := by
    simp only [wfGrid, Bool.and_eq_true, beq_iff_eq, List.all_eq_true,
      List.mem_range] at hb
    exact hb
  have hfl : st.fixed.length = 9 ∧ ∀ r, r < 9 →
      (st.fixed.getD r []).length = 9 := by
    simp only [wfFixed, Bool.and_eq_true, beq_iff_eq, List.all_eq_true,
      List.mem_range] at hf
    exact hf
  have hcl : st.candidates.length = 9 ∧ ∀ r, r < 9 →
      (st.candidates.getD r []).length = 9 := by
    simp only [wfCands, Bool.and_eq_true, beq_iff_eq, List.all_eq_true,
      List.mem_range] at hc
    exact hc
  have hsl : st.solution.length = 9 ∧ ∀ r, r < 9 →
      (st.solution.getD r []).length = 9 := by
    simp only [wfGrid, Bool.and_eq_true, beq_iff_eq, List.all_eq_true,
      List.mem_range] at hs
    exact hs
  have hcond : (dimOk (saveToPrefs st).board &&
      dimOk (saveToPrefs st).fixed01 && dimOk (saveToPrefs st).candidates &&
      dimOk (saveToPrefs st).solution) = true := by
    show (dimOk st.board &&
      dimOk (st.fixed.map fun row => row.map fun b =>
        if b then (1 : Nat) else 0) &&
      dimOk st.candidates && dimOk st.solution) = true
    rw [dimOk_of_nine hbl.1 hbl.2, dimOk_of_nine hcl.1 hcl.2,
      dimOk_of_nine hsl.1 hsl.2, dimOk_of_nine (m :=
        st.fixed.map fun row => row.map fun b =>
          if b then (1 : Nat) else 0) (by simp [hfl.1])
        (fun r hr => by
          rw [mapped_fixed_row hf hr, List.length_map]
          exact hfl.2 r hr)]
    rfl
  unfold loadFromPrefs
  rw [if_pos hcond]
  have hboard : (List.range 9).map (fun r => (List.range 9).map fun c =>
      ((saveToPrefs st).board.getD r []).getD c 0) = st.board :=
    regen_mat 0 st.board hbl.1 hbl.2
  have hsol : (List.range 9).map (fun r => (List.range 9).map fun c =>
      ((saveToPrefs st).solution.getD r []).getD c 0) = st.solution :=
    regen_mat 0 st.solution hsl.1 hsl.2
  have hcands : (List.range 9).map (fun r => (List.range 9).map fun c =>
      ((saveToPrefs st).candidates.getD r []).getD c []) = st.candidates :=
    regen_mat [] st.candidates hcl.1 hcl.2
  have hfix : (List.range 9).map (fun r => (List.range 9).map fun c =>
      decide (((saveToPrefs st).fixed01.getD r []).getD c 0 ≠ 0)) =
      st.fixed := by
    have hcong : ∀ r ∈ List.range 9,
        ((List.range 9).map fun c =>
          decide (((saveToPrefs st).fixed01.getD r []).getD c 0 ≠ 0)) =
        (List.range 9).map fun c => (st.fixed.getD r []).getD c false := by
      intro r hrm
      have hr : r < 9 := List.mem_range.mp hrm
      apply List.map_congr_left
      intro c hcm
      have hcc : c < 9 := List.mem_range.mp hcm
      show decide (((saveToPrefs st).fixed01.getD r []).getD c 0 ≠ 0) = _
      rw [show (saveToPrefs st).fixed01 = st.fixed.map fun row =>
        row.map fun b => if b then 1 else 0 from rfl]
      rw [mapped_fixed_row hf hr]
      rw [getD_map_of_lt _ (st.fixed.getD r [])
        (by rw [hfl.2 r hr]; exact hcc) 0 false]
      cases (st.fixed.getD r []).getD c false <;> rfl
    rw [List.map_congr_left hcong]
    exact regen_mat false st.fixed hfl.1 hfl.2
  have hnote : decide ((saveToPrefs st).isNoteMode ≠ 0) = st.isNoteMode := by
    show decide ((if st.isNoteMode then (1 : Nat) else 0) ≠ 0) = _
    cases st.isNoteMode <;> rfl
  have hsolved : decide ((saveToPrefs st).isSolved ≠ 0) = st.isSolved := by
    show decide ((if st.isSolved then (1 : Nat) else 0) ≠ 0) = _
    cases st.isSolved <;> rfl
  rw [hboard, hsol, hcands, hfix, hnote, hsolved]
  rfl

/-- Witness for C3: the round-trip applied at a concrete play state. -/
theorem save_load_roundtrip_witness :
    loadFromPrefs (saveToPrefs (initialVM puzzleA solvedGridA)) =
      some { initialVM puzzleA solvedGridA with undoStack := [] } :=
  save_load_roundtrip (initialVM puzzleA solvedGridA) (by decide)
    (by decide) (by decide) (by decide)

/-- The `script.js` game state that `saveProgress`/`loadProgress`
handle. -/
structure JSGame where
  grid : JSGridM
  solution : Grid
  elapsed : Nat
  mistakes : Nat
  invalid : List (Nat × Nat)

/-- The payload `saveProgress` writes: grid, solution and elapsed time
only (difficulty and timestamp are display data; the mistake counter is
not saved). -/
structure JSBlob where
  grid : JSGridM
  solutionGrid : Grid
  elapsed : Nat

/-- Embeds `saveProgress`. -/
def saveProgressJS (g : JSGame) : JSBlob :=
  { grid := g.grid, solutionGrid := g.solution, elapsed := g.elapsed }

/-- Embeds `loadProgress`: rebuild the grid, restore solution and elapsed, but
reset the mistake counter to 0 and clear the invalid set. -/
def loadProgressJS (blob : JSBlob) : JSGame :=
  { grid := blob.grid.map fun row => row.map fun cell =>
      ⟨cell.value, cell.given, cell.notes⟩
    solution := blob.solutionGrid
    elapsed := blob.elapsed
    mistakes := 0
    invalid := [] }

def jsGameC3 : JSGame :=
  { grid := numbersToModel puzzleA
    solution := solvedGridA
    elapsed := 42
    mistakes := 3
    invalid := [] }

/-- Counterexample to C3 as stated: in `script.js` the mistake count is
not persisted — loading a saved game with 3 mistakes yields 0 — so the
round-trip does not reproduce the mistake count exactly. -/
theorem save_load_mistakes_counterexample :
    (loadProgressJS (saveProgressJS jsGameC3)).mistakes = 0 ∧
    jsGameC3.mistakes = 3 := by
  decide

/-! ### Claim C9

`_createSolvedGrid`: fill cell 0..80 in order, trying a freshly
shuffled copy of 1..9 at each call, backtracking on dead ends; when the
top-level fill fails, the Dart code throws `StateError` — embedded as
`Except.error`.  Randomness is an oracle giving the swap indices of
each `List.shuffle` call (Fisher–Yates). -/

def swapNat (l : List Nat) (a b : Nat) : List Nat :=
  (l.set a (l.getD b 0)).set b (l.getD a 0)

/-- Fisher–Yates with the oracle-supplied indices: swap position `i+1`
with `seed % (i+2)`, then recurse downwards. -/
def fyShuffle (seeds : List Nat) : Nat → List Nat → List Nat
  | 0, l => l
  | i + 1, l => fyShuffle seeds i (swapNat l (i + 1) (seeds.getD i 0 % (i + 2)))

def shuffleWith (seeds : List Nat) (l : List Nat) : List Nat :=
  fyShuffle seeds (l.length - 1) l

theorem swapNat_length (l : List Nat) (a b : Nat) :
    (swapNat l a b).length = l.length := by
  simp [swapNat]

theorem mem_swapNat {l : List Nat} {a b x : Nat} (ha : a < l.length)
    (hb : b < l.length) (hx : x ∈ swapNat l a b) : x ∈ l := by
  unfold swapNat at hx
  rcases List.mem_or_eq_of_mem_set hx with hx1 | hx1
  · rcases List.mem_or_eq_of_mem_set hx1 with hx2 | hx2
    · exact hx2
    · rw [hx2, List.getD_eq_getElem l 0 hb]
      exact List.getElem_mem _
  · rw [hx1, List.getD_eq_getElem l 0 ha]
    exact List.getElem_mem _

theorem mem_fyShuffle (seeds : List Nat) :
    ∀ i l x, i < l.length → x ∈ fyShuffle seeds i l → x ∈ l := by
  intro i
  induction i with
  | zero => intro l x _ hx; exact hx
  | succ i ih =>
    intro l x hi hx
    rw [fyShuffle] at hx
    have hlen : (swapNat l (i + 1) (seeds.getD i 0 % (i + 2))).length =
        l.length := swapNat_length l _ _
    have := ih (swapNat l (i + 1) (seeds.getD i 0 % (i + 2))) x
      (by omega) hx
    exact mem_swapNat hi (by
      have : seeds.getD i 0 % (i + 2) < i + 2 := Nat.mod_lt _ (by omega)
      omega) this

theorem mem_shuffleWith {seeds : List Nat} {x : Nat}
    (hx : x ∈ shuffleWith seeds digits19) : x ∈ digits19 := by
  unfold shuffleWith at hx
  exact mem_fyShuffle seeds _ digits19 x (by decide) hx

/-- The digit loop of `fillCell`: try each candidate of the shuffled
list, place it, recurse (`next`), undo the placement when the recursive
fill fails. -/
def fillDigits (next : Grid → Nat → Bool × Grid × Nat) (r c : Nat) :
    Grid → Nat → List Nat → Bool × Grid × Nat
  | g, k, [] => (false, g, k)
  | g, k, n :: ns =>
    if canPlace g r c n then
      match next (setCell g r c n) k with
      | (ok, g1, k1) =>
        if ok then (true, g1, k1)
        else fillDigits next r c (setCell g1 r c 0) k1 ns
    else fillDigits next r c g k ns

/-- Embeds `fillCell`: `m` cells remain, the current cell index is `i = 81-m`;
each call consumes one oracle entry (`k` is the call counter). -/
def fillCellD (oracle : Nat → List Nat) : Nat → Nat → Grid → Nat →
    Bool × Grid × Nat
  | 0, _, g, k => (true, g, k)
  | m + 1, i, g, k =>
    fillDigits (fun g' k' => fillCellD oracle m (i + 1) g' k') (i / 9)
      (i % 9) g (k + 1) (shuffleWith (oracle k) digits19)

def emptyGrid : Grid := List.replicate 9 (List.replicate 9 0)

/-- Embeds `_createSolvedGrid`: run the fill from the empty grid; a failed
fill raises `StateError` (never returns a partial grid). -/
def createSolvedGrid (oracle : Nat → List Nat) : Except String Grid :=
  match fillCellD oracle 81 0 emptyGrid 0 with
  | (true, g, _) => Except.ok g
  | (false, _, _) => Except.error "Failed to generate solved grid"

theorem fillDigits_cons_pos {next : Grid → Nat → Bool × Grid × Nat}
    {r c n : Nat} {g : Grid} {k : Nat} {ns : List Nat}
    (hcp : canPlace g r c n = true) :
    fillDigits next r c g k (n :: ns) =
      if (next (setCell g r c n) k).1 = true then
        (true, (next (setCell g r c n) k).2.1,
          (next (setCell g r c n) k).2.2)
      else fillDigits next r c
        (setCell (next (setCell g r c n) k).2.1 r c 0)
        (next (setCell g r c n) k).2.2 ns := by
  rw [fillDigits, if_pos hcp]

theorem fillDigits_cons_neg {next : Grid → Nat → Bool × Grid × Nat}
    {r c n : Nat} {g : Grid} {k : Nat} {ns : List Nat}
    (hcp : ¬canPlace g r c n = true) :
    fillDigits next r c g k (n :: ns) = fillDigits next r c g k ns := by
  rw [fillDigits, if_neg hcp]

theorem fillDigits_restore {next : Grid → Nat → Bool × Grid × Nat}
    {r c : Nat} :
    ∀ ds g k, getCell g r c = 0 →
      (∀ n, n ∈ ds → ∀ k', (next (setCell g r c n) k').1 = false →
        (next (setCell g r c n) k').2.1 = setCell g r c n) →
      (fillDigits next r c g k ds).1 = false →
      (fillDigits next r c g k ds).2.1 = g := by
  intro ds
  induction ds with
  | nil => intro g k _ _ _; rfl
  | cons n ns ih =>
    intro g k h0 hnext hfail
    by_cases hcp : canPlace g r c n
    · rw [fillDigits_cons_pos hcp] at hfail ⊢
      by_cases hok : (next (setCell g r c n) k).1 = true
      · rw [if_pos hok] at hfail
        simp at hfail
      · rw [if_neg hok] at hfail ⊢
        have hfalse : (next (setCell g r c n) k).1 = false := by
          revert hok
          cases (next (setCell g r c n) k).1 <;> simp
        rw [hnext n (List.mem_cons_self n ns) _ hfalse,
          setCell_cancel n h0] at hfail ⊢
        exact ih g _ h0
          (fun m hm => hnext m (List.mem_cons_of_mem n hm)) hfail
    · rw [fillDigits_cons_neg hcp] at hfail ⊢
      exact ih g k h0
        (fun m hm => hnext m (List.mem_cons_of_mem n hm)) hfail

/-- The cell visited at step `i` is `(i / 9, i % 9)`; a cell with a
strictly larger row-major index is a different cell. -/
theorem cell_index_ne {i a b : Nat} (ha : a < 9) (hb : b < 9)
    (hne : a * 9 + b ≠ i) : i / 9 ≠ a ∨ i % 9 ≠ b := by
  by_contra hcon
  push_neg at hcon
  omega

theorem fillCellD_restore (oracle : Nat → List Nat) :
    ∀ m i g k, i + m = 81 →
      (∀ a b, a < 9 → b < 9 → i ≤ a * 9 + b → getCell g a b = 0) →
      (fillCellD oracle m i g k).1 = false →
      (fillCellD oracle m i g k).2.1 = g := by
  intro m
  induction m with
  | zero =>
    intro i g k _ _ hfail
    simp [fillCellD] at hfail
  | succ m ih =>
    intro i g k hlen hzero hfail
    rw [fillCellD] at hfail ⊢
    have hr : i / 9 < 9 := by omega
    have hc : i % 9 < 9 := by omega
    have h0 : getCell g (i / 9) (i % 9) = 0 :=
      hzero (i / 9) (i % 9) hr hc (by omega)
    refine fillDigits_restore _ g (k + 1) h0 ?_ hfail
    intro n hn k' hfail'
    apply ih (i + 1) (setCell g (i / 9) (i % 9) n) k' (by omega) ?_ hfail'
    intro a b ha hb hge
    rw [getCell_setCell_ne (cell_index_ne ha hb (by omega))]
    exact hzero a b ha hb (by omega)

theorem fillCellD_spec (oracle : Nat → List Nat) :
    ∀ m i, i + m = 81 → ∀ g k,
      wfGrid g = true → consistent g = true → digitsOk g = true →
      (∀ a b, a < 9 → b < 9 → i ≤ a * 9 + b → getCell g a b = 0) →
      (fillCellD oracle m i g k).1 = true →
      wfGrid (fillCellD oracle m i g k).2.1 = true ∧
      consistent (fillCellD oracle m i g k).2.1 = true ∧
      digitsOk (fillCellD oracle m i g k).2.1 = true ∧
      (∀ a b, a < 9 → b < 9 → i ≤ a * 9 + b →
        getCell (fillCellD oracle m i g k).2.1 a b ≠ 0) ∧
      (∀ a b, a < 9 → b < 9 → a * 9 + b < i →
        getCell (fillCellD oracle m i g k).2.1 a b = getCell g a b) := by
  intro m
  induction m with
  | zero =>
    intro i hi g k hwf hcons hd hzero hok
    refine ⟨hwf, hcons, hd, ?_, ?_⟩
    · intro a b ha hb hge
      exfalso
      omega
    · intro a b _ _ _
      rfl
  | succ m ih =>
    intro i hi g k hwf hcons hd hzero hok
    rw [fillCellD] at hok ⊢
    have hr : i / 9 < 9 := by omega
    have hc : i % 9 < 9 := by omega
    have h0 : getCell g (i / 9) (i % 9) = 0 :=
      hzero (i / 9) (i % 9) hr hc (by omega)
    have hmain : ∀ ds, (∀ n, n ∈ ds → n ∈ digits19) → ∀ k0,
        (fillDigits (fun g' k' => fillCellD oracle m (i + 1) g' k')
          (i / 9) (i % 9) g k0 ds).1 = true →
        wfGrid (fillDigits (fun g' k' => fillCellD oracle m (i + 1) g' k')
          (i / 9) (i % 9) g k0 ds).2.1 = true ∧
        consistent (fillDigits (fun g' k' =>
          fillCellD oracle m (i + 1) g' k') (i / 9) (i % 9) g k0 ds).2.1 =
          true ∧
        digitsOk (fillDigits (fun g' k' =>
          fillCellD oracle m (i + 1) g' k') (i / 9) (i % 9) g k0 ds).2.1 =
          true ∧
        (∀ a b, a < 9 → b < 9 → i ≤ a * 9 + b →
          getCell (fillDigits (fun g' k' =>
            fillCellD oracle m (i + 1) g' k') (i / 9) (i % 9) g k0
            ds).2.1 a b ≠ 0) ∧
        (∀ a b, a < 9 → b < 9 → a * 9 + b < i →
          getCell (fillDigits (fun g' k' =>
            fillCellD oracle m (i + 1) g' k') (i / 9) (i % 9) g k0
            ds).2.1 a b = getCell g a b) := by
      intro ds
      induction ds with
      | nil =>
        intro _ k0 hfl
        simp [fillDigits] at hfl
      | cons n ns ihds =>
        intro hds k0 hfl
        by_cases hcp : canPlace g (i / 9) (i % 9) n
        · rw [fillDigits_cons_pos hcp] at hfl ⊢
          obtain ⟨hn1, hn9⟩ := mem_digits19.mp (hds n
            (List.mem_cons_self n ns))
          by_cases hokn : (fillCellD oracle m (i + 1)
              (setCell g (i / 9) (i % 9) n) k0).1 = true
          · rw [if_pos hokn] at hfl ⊢
            have hchild := ih (i + 1) (by omega)
              (setCell g (i / 9) (i % 9) n) k0
              (wfGrid_setCell hwf _ _ n)
              (consistent_setCell hwf hr hc hcons hcp)
              (digitsOk_setCell hd hn9 _ _)
              (by
                intro a b ha hb hge
                rw [getCell_setCell_ne (cell_index_ne ha hb (by omega))]
                exact hzero a b ha hb (by omega))
              hokn
            refine ⟨hchild.1, hchild.2.1, hchild.2.2.1, ?_, ?_⟩
            · intro a b ha hb hge
              by_cases hcur : a * 9 + b = i
              · have he1 : a = i / 9 := by omega
                have he2 : b = i % 9 := by omega
                subst he1; subst he2
                rw [hchild.2.2.2.2 _ _ ha hb (by omega)]
                rw [getCell_setCell_self hwf hr hc]
                omega
              · exact hchild.2.2.2.1 a b ha hb (by omega)
            · intro a b ha hb hlt
              rw [hchild.2.2.2.2 a b ha hb (by omega)]
              exact getCell_setCell_ne (cell_index_ne ha hb (by omega)) n
          · rw [if_neg hokn] at hfl ⊢
            have hfalse : (fillCellD oracle m (i + 1)
                (setCell g (i / 9) (i % 9) n) k0).1 = false := by
              revert hokn
              cases (fillCellD oracle m (i + 1)
                (setCell g (i / 9) (i % 9) n) k0).1 <;> simp
            have hrest := fillCellD_restore oracle m (i + 1)
              (setCell g (i / 9) (i % 9) n) k0 (by omega)
              (by
                intro a b ha hb hge
                rw [getCell_setCell_ne (cell_index_ne ha hb (by omega))]
                exact hzero a b ha hb (by omega))
              hfalse
            rw [hrest, setCell_cancel n h0] at hfl ⊢
            exact ihds (fun x hx => hds x (List.mem_cons_of_mem n hx)) _
              hfl
        · rw [fillDigits_cons_neg hcp] at hfl ⊢
          exact ihds (fun x hx => hds x (List.mem_cons_of_mem n hx)) k0 hfl
    exact hmain (shuffleWith (oracle k) digits19)
      (fun n hn => mem_shuffleWith hn) (k + 1) hok

theorem getCell_emptyGrid (a b : Nat) : getCell emptyGrid a b = 0 := by
  show ((List.replicate 9 (List.replicate 9 0)).getD a []).getD b 0 = 0
  rcases Nat.lt_or_ge a 9 with ha | ha
  · have h1 : (List.replicate 9 (List.replicate 9 0)).getD a [] =
        List.replicate 9 0 := by
      rw [List.getD_eq_getElem _ [] (by simpa using ha)]
      exact List.getElem_replicate ..
    rw [h1]
    rcases Nat.lt_or_ge b 9 with hb | hb
    · rw [List.getD_eq_getElem _ 0 (by simpa using hb)]
      exact List.getElem_replicate ..
    · exact List.getD_eq_default _ _ (by simpa using hb)
  · have h1 : (List.replicate 9 (List.replicate 9 0)).getD a [] = [] :=
      List.getD_eq_default _ _ (by simpa using ha)
    rw [h1]
    rfl

/-- C9: for every randomness oracle, `_createSolvedGrid` either raises
the fatal `StateError` or returns a complete, fully valid solved grid —
it never silently returns a partial or constraint-violating grid, and
makes no silent retry (one fill attempt per call). -/
theorem createSolvedGrid_spec (oracle : Nat → List Nat) :
    (∃ msg, createSolvedGrid oracle = Except.error msg) ∨
    (∃ g, createSolvedGrid oracle = Except.ok g ∧ wfGrid g = true ∧
      fullGrid g = true ∧ consistent g = true ∧ digitsOk g = true) := by
  rcases hres : fillCellD oracle 81 0 emptyGrid 0 with ⟨ok, g, k⟩
  cases ok with
  | false =>
    left
    refine ⟨"Failed to generate solved grid", ?_⟩
    unfold createSolvedGrid
    rw [hres]
  | true =>
    right
    have hspec := fillCellD_spec oracle 81 0 (by omega) emptyGrid 0
      (by decide) (by decide) (by decide)
      (fun a b _ _ _ => getCell_emptyGrid a b) (by rw [hres])
    rw [hres] at hspec
    refine ⟨g, by unfold createSolvedGrid; rw [hres], hspec.1, ?_,
      hspec.2.1, hspec.2.2.1⟩
    simp only [fullGrid, List.all_eq_true, List.mem_range, bne_iff_ne]
    intro r hr c hc
    exact hspec.2.2.2.1 r c hr hc (by omega)

/-! ### Claim C1

`_removeCellsWithUniquenessCheck` of the Dart VM: a first pass removes
cells only when `_countSolutions(copy, limit: 2) == 1` verifies
uniqueness; but when that pass falls short of the removal target, a
second pass blindly removes further cells with no Solution Counter
call.  The position order (`pos..shuffle`) is an explicit argument of
the embedding. -/

/-- The uniqueness-checked pass. -/
def removePhase1 (target : Nat) : List Nat → Grid → Nat → Grid × Nat
  | [], g, removed => (g, removed)
  | idx :: rest, g, removed =>
    if target ≤ removed then (g, removed)
    else
      let r := idx / 9
      let c := idx % 9
      if getCell g r c = 0 then removePhase1 target rest g removed
      else
        let backup := getCell g r c
        let g1 := setCell g r c 0
        if countSolutionsD g1 2 ≠ 1 then
          removePhase1 target rest (setCell g1 r c backup) removed
        else removePhase1 target rest g1 (removed + 1)

/-- The blind pass (`additional blind removals`): no counter call. -/
def removePhase2 (target : Nat) : List Nat → Grid → Nat → Grid × Nat
  | [], g, removed => (g, removed)
  | idx :: rest, g, removed =>
    if target ≤ removed then (g, removed)
    else
      let r := idx / 9
      let c := idx % 9
      if getCell g r c ≠ 0 then
        removePhase2 target rest (setCell g r c 0) (removed + 1)
      else removePhase2 target rest g removed

/-- Embeds `_removeCellsWithUniquenessCheck(targetRemovals)` on a board, for a
given shuffled position list. -/
def removeCells (g : Grid) (pos : List Nat) (target : Nat) : Grid :=
  match removePhase1 target pos g 0 with
  | (g1, removed) =>
    if removed < target then (removePhase2 target pos g1 removed).1 else g1

/-- A valid solved grid holding the unavoidable rectangle 1,2 / 2,1 at
cells (0,0), (0,3), (1,0), (1,3). -/
def solvedGridR : Grid :=
  [[1, 3, 4, 2, 5, 6, 7, 8, 9],
   [2, 5, 7, 1, 8, 9, 3, 4, 6],
   [6, 8, 9, 3, 4, 7, 1, 2, 5],
   [3, 1, 2, 4, 6, 5, 8, 9, 7],
   [4, 6, 8, 7, 9, 1, 2, 5, 3],
   [7, 9, 5, 8, 2, 3, 4, 6, 1],
   [5, 2, 1, 6, 3, 4, 9, 7, 8],
   [8, 7, 6, 9, 1, 2, 5, 3, 4],
   [9, 4, 3, 5, 7, 8, 6, 1, 2]]

/-- Grid `solvedGridR` with the four rectangle cells cleared: a 77-clue
board with exactly two completions, on which no single further removal
can restore uniqueness. -/
def rectanglePuzzle : Grid :=
  [[0, 3, 4, 0, 5, 6, 7, 8, 9],
   [0, 5, 7, 0, 8, 9, 3, 4, 6],
   [6, 8, 9, 3, 4, 7, 1, 2, 5],
   [3, 1, 2, 4, 6, 5, 8, 9, 7],
   [4, 6, 8, 7, 9, 1, 2, 5, 3],
   [7, 9, 5, 8, 2, 3, 4, 6, 1],
   [5, 2, 1, 6, 3, 4, 9, 7, 8],
   [8, 7, 6, 9, 1, 2, 5, 3, 4],
   [9, 4, 3, 5, 7, 8, 6, 1, 2]]

set_option maxHeartbeats 8000000 in
/-- C1, demonstration of the divergence: on `rectanglePuzzle` the
uniqueness-checked pass rejects every removal (each check reports 2
completions), so the blind pass triggers and removes a cell with no
verification — the returned board is counted by the Solution Counter
at 2 completions, not 1.  The cited claim requires every committed
removal to be counter-verified, which the blind pass violates. -/
theorem removeCells_blind_removal_not_unique :
    (removePhase1 1 (List.range 81) rectanglePuzzle 0).2 = 0 ∧
    countSolutionsD (removeCells rectanglePuzzle (List.range 81) 1) 2 =
      2 := by
  constructor
  · decide
  · decide

end Sudoku
